import Mathlib

/-!
Verification of the DC circuit solver of the Resona repository
(`src/simulation/solver.ts`), shallowly embedded over the rationals.
Machine doubles are idealized as exact rational arithmetic; every
definition mirrors the corresponding TypeScript function line by line.
-/

namespace Resona

/-- Closed set of component type tags (`ComponentType` in `src/types.ts`). -/
inductive ComponentType where
  | Resistor
  | Capacitor
  | Inductor
  | PowerSource
  | Oscilloscope
deriving DecidableEq, Repr

/-- A two-terminal circuit component: identity, type tag and scalar value
(`CircuitComponent`).  Position and cached results are UI-only and omitted. -/
structure CircuitComponent where
  id : String
  type : ComponentType
  value : ℚ
deriving DecidableEq, Repr

/-- One terminal of a component (`ConnectionPoint`): the component id and the
terminal index (0 or 1 in the source's type).  The solver keys terminals by the
string `` `${componentId}-${terminalIndex}` ``; since the decimal index never
contains a dash this encoding is injective, so we key by the pair itself. -/
structure ConnectionPoint where
  componentId : String
  terminalIndex : Nat
deriving DecidableEq, Repr

/-- A wire between two terminals (`Connection`).  The `end` field of the source
is named `endp` here because `end` is a Lean keyword. -/
structure Connection where
  start : ConnectionPoint
  endp : ConnectionPoint
deriving DecidableEq, Repr

/-- Threshold `1e-9` under which a resistor is treated as an ideal short
(solver.ts lines 124 and 151). -/
def shortEps : ℚ := 1 / 10 ^ 9

/-- Threshold `1e-12` under which a pivot is declared singular
(solver.ts line 25). -/
def singularEps : ℚ := 1 / 10 ^ 12

/-- Association-list lookup used for all of the solver's `Map` objects. -/
def alookup {α β : Type} [DecidableEq α] (k : α) : List (α × β) → Option β
  | [] => none
  | (k', v) :: rest => if k = k' then some v else alookup k rest

/-- First index of an element satisfying a predicate (`Array.prototype.findIndex`,
returning `none` instead of `-1`). -/
def findIdxA {α : Type} (p : α → Bool) : List α → Option Nat
  | [] => none
  | a :: l => if p a then some 0 else (findIdxA p l).map (· + 1)

/-! ## Gaussian elimination (`solveLinearSystem`, solver.ts lines 8-49) -/

/-- Augment each row of `A` with the corresponding entry of `b`
(`const Ab = A.map((row, i) => [...row, b[i]])`). -/
def augmented (A : List (List ℚ)) (b : List ℚ) : List (List ℚ) :=
  A.enum.map fun iv => iv.2 ++ [b.getD iv.1 0]

/-- Entry `Ab[i][j]` with 0 for out-of-range access. -/
def entry (Ab : List (List ℚ)) (i j : Nat) : ℚ :=
  (Ab.getD i []).getD j 0

/-- Partial pivot search: the row `k ∈ [i+1, n)` whose column-`i` entry has the
strictly largest absolute value, starting from `maxRow = i`
(solver.ts lines 14-19). -/
def findMaxRow (Ab : List (List ℚ)) (i n : Nat) : Nat :=
  (List.range' (i + 1) (n - (i + 1))).foldl
    (fun maxRow k => if |entry Ab k i| > |entry Ab maxRow i| then k else maxRow) i

/-- Swap rows `i` and `j` (solver.ts line 22). -/
def swapRows (Ab : List (List ℚ)) (i j : Nat) : List (List ℚ) :=
  (Ab.set i (Ab.getD j [])).set j (Ab.getD i [])

/-- Zero out column `i` in every row below row `i` (solver.ts lines 31-36):
row `k > i` becomes `row_k - (Ab[k][i]/Ab[i][i]) * row_i` on columns `j ≥ i`. -/
def eliminateBelow (Ab : List (List ℚ)) (i : Nat) : List (List ℚ) :=
  Ab.enum.map fun kr =>
    if kr.1 ≤ i then kr.2
    else
      let factor := entry Ab kr.1 i / entry Ab i i
      kr.2.enum.map fun jv => if jv.1 < i then jv.2 else jv.2 - factor * entry Ab i jv.1

/-- Forward elimination loop (solver.ts lines 12-37): for each `i < n`, pivot,
swap, abort with `none` when the post-swap pivot magnitude is below `1e-12`,
otherwise eliminate below.  Structural fuel; the caller passes `fuel = n`,
which covers exactly the `n` iterations of the source loop. -/
def forwardElim (n : Nat) : Nat → Nat → List (List ℚ) → Option (List (List ℚ))
  | 0, _, Ab => some Ab
  | fuel + 1, i, Ab =>
    if i < n then
      let maxRow := findMaxRow Ab i n
      let Ab1 := swapRows Ab i maxRow
      if |entry Ab1 i i| < singularEps then none
      else forwardElim n fuel (i + 1) (eliminateBelow Ab1 i)
    else some Ab

/-- Back substitution (solver.ts lines 40-47), building `x` from the last row
up: the call `backSubAux Ab n k acc` has already computed `acc = [x_k, …, x_{n-1}]`. -/
def backSubAux (Ab : List (List ℚ)) (n : Nat) : Nat → List ℚ → List ℚ
  | 0, acc => acc
  | k + 1, acc =>
    let row := Ab.getD k []
    let s := (List.zipWith (fun a x => a * x) ((row.drop (k + 1)).take (n - (k + 1))) acc).sum
    backSubAux Ab n k (((row.getD n 0 - s) / row.getD k 0) :: acc)

/-- Solve `A x = b` by Gaussian elimination with partial pivoting
(`solveLinearSystem`), returning `none` on a (near-)singular system. -/
def solveLinearSystem (A : List (List ℚ)) (b : List ℚ) : Option (List ℚ) :=
  let n := A.length
  match forwardElim n n 0 (augmented A b) with
  | none => none
  | some Ab => some (backSubAux Ab n n [])

/-! ## Topology builder (solver.ts lines 57-99) -/

/-- Map from terminal to electrical node id (`terminalToNode`). -/
abbrev TMap := List (ConnectionPoint × Nat)

/-- Adjacency list of a terminal (`adj`, solver.ts lines 62-70): each connection
contributes its `end` to its `start`'s list and its `start` to its `end`'s list,
in connection order. -/
def adjOf (conns : List Connection) (k : ConnectionPoint) : List ConnectionPoint :=
  conns.foldr
    (fun c acc =>
      (if c.start = k then [c.endp] else []) ++ (if c.endp = k then [c.start] else []) ++ acc)
    []

/-- Scan the neighbor list of the terminal being processed (solver.ts lines
87-94): unvisited neighbors are recorded with node id `nid` and returned as the
freshly discovered queue extension, in neighbor order. -/
def discover (nid : Nat) : List ConnectionPoint → TMap → TMap × List ConnectionPoint
  | [], m => (m, [])
  | nb :: rest, m =>
    if (alookup nb m).isSome then discover nid rest m
    else
      let out := discover nid rest ((nb, nid) :: m)
      (out.1, nb :: out.2)

/-- Breadth-first traversal loop (solver.ts lines 82-95) over the pending queue.
Fuel is structural; each step strictly decreases `pending.length + (bound - m.length)`,
so the fuel chosen by `buildTopology` always suffices. -/
def bfsAux (adj : ConnectionPoint → List ConnectionPoint) (nid : Nat) :
    Nat → List ConnectionPoint → TMap → TMap
  | 0, _, m => m
  | _ + 1, [], m => m
  | fuel + 1, p :: ps, m =>
    let out := discover nid (adj p) m
    bfsAux adj nid fuel (ps ++ out.2) out.1

/-- All terminals of the component list, in the visit order of the outer loop
(solver.ts lines 72-73): component order, terminal 0 before terminal 1. -/
def allTerminals (comps : List CircuitComponent) : List ConnectionPoint :=
  comps.foldr (fun c acc => ⟨c.id, 0⟩ :: ⟨c.id, 1⟩ :: acc) []

/-- Outer node-building loop (solver.ts lines 72-99): each unvisited terminal
seeds a breadth-first traversal that labels its whole class with the current
node counter. -/
def buildAux (adj : ConnectionPoint → List ConnectionPoint) (fuel : Nat) :
    List ConnectionPoint → TMap → Nat → TMap × Nat
  | [], m, nid => (m, nid)
  | t :: ts, m, nid =>
    if (alookup t m).isSome then buildAux adj fuel ts m nid
    else buildAux adj fuel ts (bfsAux adj nid fuel [t] ((t, nid) :: m)) (nid + 1)

/-- The topology builder: the `terminalToNode` map together with the final node
counter (`numNodes`).  The fuel bound `2·|components| + 2·|connections| + 1`
always suffices for each inner traversal, because every traversal step either
consumes a pending entry or inserts a key drawn from the at most
`2·|components| + 2·|connections|` terminals mentioned by the input. -/
def buildTopology (comps : List CircuitComponent) (conns : List Connection) : TMap × Nat :=
  buildAux (adjOf conns) (2 * comps.length + 2 * conns.length + 1) (allTerminals comps) [] 0

/-! ## MNA formulation and result mapping (solver.ts lines 104-248) -/

/-- Components that carry a branch-current variable (solver.ts lines 123-125):
power sources, inductors, and resistors with value below `1e-9`. -/
def cwcOf (comps : List CircuitComponent) : List CircuitComponent :=
  comps.filter fun c =>
    decide (c.type = ComponentType.PowerSource ∨ c.type = ComponentType.Inductor ∨
      (c.type = ComponentType.Resistor ∧ c.value < shortEps))

/-- Matrix-index assignment for non-ground nodes (solver.ts lines 141-147):
nodes `0, …, numNodes-1` except the ground node, numbered in order. -/
def nodeIndexList (numNodes ground : Nat) : List (Nat × Nat) :=
  (((List.range numNodes).filter fun i => decide (i ≠ ground)).enum).map fun p => (p.2, p.1)

/-- In-place matrices are embedded as update functions on `Nat → Nat → ℚ`. -/
def addA (A : Nat → Nat → ℚ) (r c : Nat) (q : ℚ) : Nat → Nat → ℚ :=
  fun r' c' => if r' = r ∧ c' = c then A r' c' + q else A r' c'

/-- Matrix index of node `n` (`nodeIndexMap.get(n)!`; the lookup never fails on
the nodes the solver passes in). -/
def nodeIdx (nim : List (Nat × Nat)) (n : Nat) : Nat :=
  (alookup n nim).getD 0

/-- Conductance stamp of one ordinary resistor (solver.ts lines 150-171). -/
def stampResistor (t2n : TMap) (ground : Nat) (nim : List (Nat × Nat))
    (A : Nat → Nat → ℚ) (c : CircuitComponent) : Nat → Nat → ℚ :=
  if c.type = ComponentType.Resistor ∧ shortEps ≤ c.value then
    let g := 1 / c.value
    let n1 := (alookup ⟨c.id, 0⟩ t2n).getD 0
    let n2 := (alookup ⟨c.id, 1⟩ t2n).getD 0
    let A1 := if n1 ≠ ground then addA A (nodeIdx nim n1) (nodeIdx nim n1) g else A
    let A2 := if n2 ≠ ground then addA A1 (nodeIdx nim n2) (nodeIdx nim n2) g else A1
    if n1 ≠ ground ∧ n2 ≠ ground then
      addA (addA A2 (nodeIdx nim n1) (nodeIdx nim n2) (-g)) (nodeIdx nim n2) (nodeIdx nim n1) (-g)
    else A2
  else A

/-- Stamp of one branch-current component at current-variable column
`numVoltageVars + i` (solver.ts lines 174-194): `±1` couplings and the source
value (or 0) on the right-hand side. -/
def stampCurrent (t2n : TMap) (ground : Nat) (nim : List (Nat × Nat)) (numVoltageVars : Nat)
    (st : (Nat → Nat → ℚ) × (Nat → ℚ)) (ic : Nat × CircuitComponent) :
    (Nat → Nat → ℚ) × (Nat → ℚ) :=
  let currentVarIndex := numVoltageVars + ic.1
  let c := ic.2
  let n1 := (alookup ⟨c.id, 0⟩ t2n).getD 0
  let n2 := (alookup ⟨c.id, 1⟩ t2n).getD 0
  let value : ℚ := if c.type = ComponentType.PowerSource then c.value else 0
  let A1 :=
    if n2 ≠ ground then
      addA (addA st.1 (nodeIdx nim n2) currentVarIndex 1) currentVarIndex (nodeIdx nim n2) 1
    else st.1
  let A2 :=
    if n1 ≠ ground then
      addA (addA A1 (nodeIdx nim n1) currentVarIndex (-1)) currentVarIndex (nodeIdx nim n1) (-1)
    else A1
  (A2, fun j => if j = currentVarIndex then value else st.2 j)

/-- Attach its position to each element (`componentsWithCurrents.forEach((comp, i) => …)`). -/
def enumList {α : Type} (l : List α) : List (Nat × α) := l.enum

/-- The fully stamped coefficient matrix and right-hand side, materialized as
lists of the given size. -/
def mnaSystem (comps : List CircuitComponent) (t2n : TMap) (ground : Nat)
    (nim : List (Nat × Nat)) (numVoltageVars matrixSize : Nat) :
    List (List ℚ) × List ℚ :=
  let A0 : Nat → Nat → ℚ := fun _ _ => 0
  let z0 : Nat → ℚ := fun _ => 0
  let Ares := comps.foldl (stampResistor t2n ground nim) A0
  let Az := (enumList (cwcOf comps)).foldl (stampCurrent t2n ground nim numVoltageVars) (Ares, z0)
  ((List.range matrixSize).map fun r => (List.range matrixSize).map fun c => Az.1 r c,
   (List.range matrixSize).map Az.2)

/-- Voltage of a node (solver.ts lines 207-211, 222-223): ground is 0, nodes
with a matrix index read the solution vector, anything else defaults to 0. -/
def nodeVoltage (ground : Nat) (nim : List (Nat × Nat)) (sol : List ℚ) (n : Nat) : ℚ :=
  if n = ground then 0
  else
    match alookup n nim with
    | some i => sol.getD i 0
    | none => 0

/-- Per-component result entry (solver.ts lines 213-246): absolute voltage
difference between the terminal nodes, and a current from the solved branch
variable, Ohm's law, or 0 according to the component type. -/
def resultFor (t2n : TMap) (ground : Nat) (nim : List (Nat × Nat)) (numVoltageVars : Nat)
    (cwc : List CircuitComponent) (sol : List ℚ) (c : CircuitComponent) : String × (ℚ × ℚ) :=
  match alookup ⟨c.id, 0⟩ t2n, alookup ⟨c.id, 1⟩ t2n with
  | some n1, some n2 =>
    let v1 := nodeVoltage ground nim sol n1
    let v2 := nodeVoltage ground nim sol n2
    let voltage := |v2 - v1|
    let current :=
      match findIdxA (fun d => d.id == c.id) cwc with
      | some i => |sol.getD (numVoltageVars + i) 0|
      | none =>
        match c.type with
        | ComponentType.Resistor => voltage / c.value
        | ComponentType.Capacitor => 0
        | _ => 0
    (c.id, (voltage, current))
  | _, _ => (c.id, (0, 0))

/-- Report every component as 0 V / 0 A (solver.ts lines 112-117 and 130-136). -/
def zeroResults (comps : List CircuitComponent) : List (String × (ℚ × ℚ)) :=
  comps.map fun c => (c.id, (0, 0))

/-- Ground node chosen for the first power source `ps` (solver.ts lines
105-110): the node of its terminal 0, defaulting to 0. -/
def groundFor (t2n : TMap) (ps : CircuitComponent) : Nat :=
  (alookup ⟨ps.id, 0⟩ t2n).getD 0

/-- The assembled MNA system for a circuit whose first power source is `ps`:
coefficient matrix and right-hand-side vector (solver.ts lines 121-195). -/
def setupOf (comps : List CircuitComponent) (conns : List Connection)
    (ps : CircuitComponent) : List (List ℚ) × List ℚ :=
  let tp := buildTopology comps conns
  let ground := groundFor tp.1 ps
  let numVoltageVars := tp.2 - 1
  let matrixSize := numVoltageVars + (cwcOf comps).length
  mnaSystem comps tp.1 ground (nodeIndexList tp.2 ground) numVoltageVars matrixSize

/-- The DC solver `runSimulation` (solver.ts lines 51-249).  The returned
record is embedded as an association list in component order; with the unique
component ids the UI guarantees, it carries the same information. -/
def runSimulation (comps : List CircuitComponent) (conns : List Connection) :
    List (String × (ℚ × ℚ)) :=
  if comps = [] then []
  else
    let tp := buildTopology comps conns
    let t2n := tp.1
    let numNodes := tp.2
    if numNodes = 0 then []
    else
      match comps.filter fun c => decide (c.type = ComponentType.PowerSource) with
      | [] => zeroResults comps
      | ps :: _ =>
        let ground := groundFor t2n ps
        let cwc := cwcOf comps
        let numVoltageVars := numNodes - 1
        let matrixSize := numVoltageVars + cwc.length
        if matrixSize = 0 then zeroResults comps
        else
          let Az := setupOf comps conns ps
          match solveLinearSystem Az.1 Az.2 with
          | none => []
          | some sol =>
            comps.map (resultFor t2n ground (nodeIndexList numNodes ground) numVoltageVars cwc sol)

/-! ## Basic lemmas about the map and list helpers -/

theorem alookup_cons {α β : Type} [DecidableEq α] (k k' : α) (v : β) (l : List (α × β)) :
    alookup k ((k', v) :: l) = if k = k' then some v else alookup k l := rfl

theorem alookup_insert_self {α β : Type} [DecidableEq α] (k : α) (v : β) (l : List (α × β)) :
    alookup k ((k, v) :: l) = some v := by
  simp [alookup_cons]

theorem alookup_insert_of_ne {α β : Type} [DecidableEq α] {k k' : α} (v : β) (l : List (α × β))
    (h : k ≠ k') : alookup k ((k', v) :: l) = alookup k l := by
  simp [alookup_cons, h]

theorem alookup_append {α β : Type} [DecidableEq α] (k : α) (l1 l2 : List (α × β)) :
    alookup k (l1 ++ l2) =
      match alookup k l1 with
      | some v => some v
      | none => alookup k l2 := by
  induction l1 with
  | nil => simp [alookup]
  | cons p rest ih =>
    obtain ⟨k', v⟩ := p
    by_cases h : k = k'
    · subst h
      simp [alookup_cons]
    · simp [alookup_cons, h, ih]

theorem alookup_isSome_iff_mem_keys {α β : Type} [DecidableEq α] (k : α) (l : List (α × β)) :
    (alookup k l).isSome = true ↔ k ∈ l.map Prod.fst := by
  induction l with
  | nil => simp [alookup]
  | cons p rest ih =>
    obtain ⟨k', v⟩ := p
    by_cases h : k = k'
    · subst h
      simp [alookup_cons]
    · simp [alookup_cons, h, ih]

theorem alookup_eq_none_of_not_mem {α β : Type} [DecidableEq α] {k : α} {l : List (α × β)}
    (h : k ∉ l.map Prod.fst) : alookup k l = none := by
  cases hl : alookup k l with
  | none => rfl
  | some v =>
    exact absurd ((alookup_isSome_iff_mem_keys k l).mp (by simp [hl])) h

theorem findIdxA_eq_none_iff {α : Type} (p : α → Bool) (l : List α) :
    findIdxA p l = none ↔ ∀ a ∈ l, ¬p a := by
  induction l with
  | nil => simp [findIdxA]
  | cons a rest ih =>
    by_cases h : p a
    · simp [findIdxA, h]
    · simp [findIdxA, h, ih]

/-! ## Adjacency lemmas -/

/-- Membership in a terminal's adjacency list is exactly "some connection joins
the two terminals". -/
theorem mem_adjOf_iff (conns : List Connection) (k k' : ConnectionPoint) :
    k' ∈ adjOf conns k ↔
      ∃ c ∈ conns, (c.start = k ∧ c.endp = k') ∨ (c.endp = k ∧ c.start = k') := by
  induction conns with
  | nil => simp [adjOf]
  | cons c rest ih =>
    simp only [adjOf, List.foldr_cons] at *
    by_cases h1 : c.start = k <;> by_cases h2 : c.endp = k <;>
      simp [h1, h2, ih] <;> aesop

/-- The adjacency relation is symmetric. -/
theorem adjOf_symm (conns : List Connection) (k k' : ConnectionPoint)
    (h : k' ∈ adjOf conns k) : k ∈ adjOf conns k' := by
  rw [mem_adjOf_iff] at h ⊢
  obtain ⟨c, hc, h⟩ := h
  exact ⟨c, hc, by tauto⟩

/-- All terminals mentioned by the connection list, in order. -/
def connTerminals (conns : List Connection) : List ConnectionPoint :=
  conns.foldr (fun c acc => c.start :: c.endp :: acc) []

theorem mem_connTerminals_of_mem_adjOf (conns : List Connection) (k k' : ConnectionPoint)
    (h : k' ∈ adjOf conns k) : k' ∈ connTerminals conns := by
  rw [mem_adjOf_iff] at h
  obtain ⟨c, hc, h⟩ := h
  induction conns with
  | nil => cases hc
  | cons d rest ih =>
    cases hc with
    | head =>
      rcases h with ⟨_, rfl⟩ | ⟨_, rfl⟩ <;> simp [connTerminals]
    | tail _ hc =>
      simp only [connTerminals, List.foldr_cons]
      exact List.mem_cons_of_mem _ (List.mem_cons_of_mem _ (ih hc))

/-- A terminal touched by no connection has an empty adjacency list. -/
theorem adjOf_eq_nil_of_untouched (conns : List Connection) (k : ConnectionPoint)
    (h : ∀ c ∈ conns, c.start ≠ k ∧ c.endp ≠ k) : adjOf conns k = [] := by
  induction conns with
  | nil => rfl
  | cons c rest ih =>
    have hc := h c (by simp)
    simp only [adjOf, List.foldr_cons, hc.1, hc.2, if_neg, List.nil_append]
    exact ih fun d hd => h d (List.mem_cons_of_mem _ hd)

theorem connTerminals_length (conns : List Connection) :
    (connTerminals conns).length = 2 * conns.length := by
  induction conns with
  | nil => rfl
  | cons c rest ih => simp [connTerminals] at *; omega

theorem allTerminals_length (comps : List CircuitComponent) :
    (allTerminals comps).length = 2 * comps.length := by
  induction comps with
  | nil => rfl
  | cons c rest ih => simp [allTerminals] at *; omega

theorem mem_allTerminals (comps : List CircuitComponent) (c : CircuitComponent)
    (hc : c ∈ comps) (t : Nat) (ht : t = 0 ∨ t = 1) :
    (⟨c.id, t⟩ : ConnectionPoint) ∈ allTerminals comps := by
  induction comps with
  | nil => cases hc
  | cons d rest ih =>
    cases hc with
    | head =>
      rcases ht with rfl | rfl <;> simp [allTerminals]
    | tail _ hc =>
      simp only [allTerminals, List.foldr_cons]
      exact List.mem_cons_of_mem _ (List.mem_cons_of_mem _ (ih hc))

/-! ## Lemmas about the neighbor scan `discover` -/

theorem alookup_map_const (k : ConnectionPoint) (nid v : Nat) (l : List ConnectionPoint)
    (h : alookup k (l.map fun k' => (k', nid)) = some v) : v = nid ∧ k ∈ l := by
  induction l with
  | nil => simp [alookup] at h
  | cons a rest ih =>
    by_cases hk : k = a
    · subst hk
      simp [alookup_cons] at h
      simp [h]
    · simp only [List.map_cons] at h
      rw [alookup_insert_of_ne _ _ hk] at h
      have := ih h
      exact ⟨this.1, List.mem_cons_of_mem _ this.2⟩

/-- The map returned by `discover` is the fresh entries (latest first), all
labelled `nid`, stacked on the input map. -/
theorem discover_map_eq (nid : Nat) (ns : List ConnectionPoint) (m : TMap) :
    (discover nid ns m).1 = ((discover nid ns m).2.reverse.map fun k => (k, nid)) ++ m := by
  induction ns generalizing m with
  | nil => simp [discover]
  | cons nb rest ih =>
    by_cases h : (alookup nb m).isSome
    · simp only [discover, h, if_pos]
      exact ih m
    · simp only [discover, h, if_neg, Bool.false_eq_true, not_false_iff]
      have := ih ((nb, nid) :: m)
      simp only [this, List.reverse_cons, List.map_append, List.map_cons, List.map_nil]
      simp

theorem discover_fresh_not_mem (nid : Nat) (ns : List ConnectionPoint) (m : TMap) :
    ∀ k ∈ (discover nid ns m).2, alookup k m = none := by
  induction ns generalizing m with
  | nil => simp [discover]
  | cons nb rest ih =>
    intro k hk
    by_cases h : (alookup nb m).isSome
    · simp only [discover, h, if_pos] at hk
      exact ih m k hk
    · simp only [discover, h, if_neg, Bool.false_eq_true, not_false_iff] at hk
      cases hk with
      | head => exact Option.not_isSome_iff_eq_none.mp h
      | tail _ hk =>
        have := ih ((nb, nid) :: m) k hk
        by_cases hke : k = nb
        · subst hke
          rw [alookup_insert_self] at this
          cases this
        · rwa [alookup_insert_of_ne _ _ hke] at this

theorem discover_fresh_subset (nid : Nat) (ns : List ConnectionPoint) (m : TMap) :
    ∀ k ∈ (discover nid ns m).2, k ∈ ns := by
  induction ns generalizing m with
  | nil => simp [discover]
  | cons nb rest ih =>
    intro k hk
    by_cases h : (alookup nb m).isSome
    · simp only [discover, h, if_pos] at hk
      exact List.mem_cons_of_mem _ (ih m k hk)
    · simp only [discover, h, if_neg, Bool.false_eq_true, not_false_iff] at hk
      cases hk with
      | head => exact List.mem_cons_self _ _
      | tail _ hk => exact List.mem_cons_of_mem _ (ih ((nb, nid) :: m) k hk)

theorem discover_fresh_nodup (nid : Nat) (ns : List ConnectionPoint) (m : TMap) :
    (discover nid ns m).2.Nodup := by
  induction ns generalizing m with
  | nil => simp [discover]
  | cons nb rest ih =>
    by_cases h : (alookup nb m).isSome
    · simp only [discover, h, if_pos]
      exact ih m
    · simp only [discover, h, if_neg, Bool.false_eq_true, not_false_iff]
      refine List.nodup_cons.mpr ⟨?_, ih ((nb, nid) :: m)⟩
      intro hmem
      have := discover_fresh_not_mem nid rest ((nb, nid) :: m) nb hmem
      rw [alookup_insert_self] at this
      cases this

theorem discover_preserves (nid : Nat) (ns : List ConnectionPoint) (m : TMap) (k : ConnectionPoint)
    (v : Nat) (h : alookup k m = some v) : alookup k (discover nid ns m).1 = some v := by
  rw [discover_map_eq, alookup_append]
  have hnone : alookup k ((discover nid ns m).2.reverse.map fun k' => (k', nid)) = none := by
    apply alookup_eq_none_of_not_mem
    intro hmem
    simp only [List.map_map] at hmem
    have : k ∈ (discover nid ns m).2.reverse := by
      simpa using hmem
    have := discover_fresh_not_mem nid ns m k (List.mem_reverse.mp this)
    rw [this] at h
    cases h
  rw [hnone]
  exact h

theorem discover_lookup_new (nid : Nat) (ns : List ConnectionPoint) (m : TMap)
    (k : ConnectionPoint) (v : Nat) (h : alookup k (discover nid ns m).1 = some v) :
    alookup k m = some v ∨ (v = nid ∧ k ∈ ns) := by
  rw [discover_map_eq, alookup_append] at h
  cases hf : alookup k ((discover nid ns m).2.reverse.map fun k' => (k', nid)) with
  | none => rw [hf] at h; exact Or.inl h
  | some w =>
    rw [hf] at h
    cases h
    have := alookup_map_const k nid v _ hf
    exact Or.inr ⟨this.1, discover_fresh_subset nid ns m k (List.mem_reverse.mp this.2)⟩

theorem discover_lookup_cases (nid : Nat) (ns : List ConnectionPoint) (m : TMap)
    (k : ConnectionPoint) (v : Nat) (h : alookup k (discover nid ns m).1 = some v) :
    alookup k m = some v ∨ (v = nid ∧ k ∈ (discover nid ns m).2) := by
  rw [discover_map_eq, alookup_append] at h
  cases hf : alookup k ((discover nid ns m).2.reverse.map fun k' => (k', nid)) with
  | none => rw [hf] at h; exact Or.inl h
  | some w =>
    rw [hf] at h
    cases h
    have := alookup_map_const k nid v _ hf
    exact Or.inr ⟨this.1, List.mem_reverse.mp this.2⟩

theorem discover_total (nid : Nat) (ns : List ConnectionPoint) (m : TMap) :
    ∀ k ∈ ns, (alookup k (discover nid ns m).1).isSome = true := by
  induction ns generalizing m with
  | nil => simp
  | cons nb rest ih =>
    intro k hk
    by_cases h : (alookup nb m).isSome
    · simp only [discover, h, if_pos]
      cases hk with
      | head =>
        obtain ⟨v, hv⟩ := Option.isSome_iff_exists.mp h
        simp [discover_preserves nid rest m nb v hv]
      | tail _ hk => exact ih m k hk
    · simp only [discover, h, if_neg, Bool.false_eq_true, not_false_iff]
      cases hk with
      | head =>
        simp [discover_preserves nid rest ((nb, nid) :: m) nb nid (alookup_insert_self _ _ _)]
      | tail _ hk => exact ih ((nb, nid) :: m) k hk

theorem discover_length (nid : Nat) (ns : List ConnectionPoint) (m : TMap) :
    (discover nid ns m).1.length = m.length + (discover nid ns m).2.length := by
  rw [discover_map_eq]
  simp [Nat.add_comm]

theorem discover_keys (nid : Nat) (ns : List ConnectionPoint) (m : TMap) :
    (discover nid ns m).1.map Prod.fst = (discover nid ns m).2.reverse ++ m.map Prod.fst := by
  conv_lhs => rw [discover_map_eq]
  simp [Function.comp_def]

theorem discover_nodup_keys (nid : Nat) (ns : List ConnectionPoint) (m : TMap)
    (h : (m.map Prod.fst).Nodup) : ((discover nid ns m).1.map Prod.fst).Nodup := by
  rw [discover_keys]
  refine List.Nodup.append (List.nodup_reverse.mpr (discover_fresh_nodup nid ns m)) h ?_
  intro k hk1 hk2
  have hnone := discover_fresh_not_mem nid ns m k (List.mem_reverse.mp hk1)
  have hsome := (alookup_isSome_iff_mem_keys k m).mpr hk2
  rw [hnone] at hsome
  simp at hsome

/-! ## Lemmas about the breadth-first traversal loop -/

theorem alookup_map_const_mem (k : ConnectionPoint) (nid : Nat) (l : List ConnectionPoint)
    (h : k ∈ l) : alookup k (l.map fun k' => (k', nid)) = some nid := by
  induction l with
  | nil => cases h
  | cons a rest ih =>
    by_cases hk : k = a
    · subst hk
      simp [alookup_insert_self]
    · cases h with
      | head => exact absurd rfl hk
      | tail _ h =>
        simp only [List.map_cons]
        rw [alookup_insert_of_ne _ _ hk]
        exact ih h

theorem discover_fresh_lookup (nid : Nat) (ns : List ConnectionPoint) (m : TMap)
    (k : ConnectionPoint) (h : k ∈ (discover nid ns m).2) :
    alookup k (discover nid ns m).1 = some nid := by
  rw [discover_map_eq, alookup_append]
  rw [alookup_map_const_mem k nid _ (List.mem_reverse.mpr h)]

theorem bfsAux_nil_pending (adj : ConnectionPoint → List ConnectionPoint) (nid fuel : Nat)
    (m : TMap) : bfsAux adj nid fuel [] m = m := by
  cases fuel <;> rfl

theorem bfsAux_preserves (adj : ConnectionPoint → List ConnectionPoint) (nid : Nat) :
    ∀ (fuel : Nat) (pend : List ConnectionPoint) (m : TMap) (k : ConnectionPoint) (v : Nat),
      alookup k m = some v → alookup k (bfsAux adj nid fuel pend m) = some v := by
  intro fuel
  induction fuel with
  | zero => intro pend m k v h; exact h
  | succ f ih =>
    intro pend m k v h
    cases pend with
    | nil => exact h
    | cons p ps =>
      simp only [bfsAux]
      exact ih _ _ k v (discover_preserves nid (adj p) m k v h)

theorem bfsAux_lookup_new (adj : ConnectionPoint → List ConnectionPoint) (nid : Nat) :
    ∀ (fuel : Nat) (pend : List ConnectionPoint) (m : TMap) (k : ConnectionPoint) (v : Nat),
      alookup k (bfsAux adj nid fuel pend m) = some v →
      alookup k m = some v ∨ (v = nid ∧ (k ∈ pend ∨ ∃ p, k ∈ adj p)) := by
  intro fuel
  induction fuel with
  | zero => intro pend m k v h; exact Or.inl h
  | succ f ih =>
    intro pend m k v h
    cases pend with
    | nil => exact Or.inl h
    | cons p ps =>
      simp only [bfsAux] at h
      rcases ih _ _ k v h with h' | ⟨hveq, h'⟩
      · rcases discover_lookup_new nid (adj p) m k v h' with h'' | ⟨hveq, h''⟩
        · exact Or.inl h''
        · exact Or.inr ⟨hveq, Or.inr ⟨p, h''⟩⟩
      · rcases h' with h' | ⟨q, hq⟩
        · rcases List.mem_append.mp h' with h' | h'
          · exact Or.inr ⟨hveq, Or.inl (List.mem_cons_of_mem _ h')⟩
          · exact Or.inr ⟨hveq, Or.inr ⟨p, discover_fresh_subset nid (adj p) m k h'⟩⟩
        · exact Or.inr ⟨hveq, Or.inr ⟨q, hq⟩⟩

theorem bfsAux_nodup_keys (adj : ConnectionPoint → List ConnectionPoint) (nid : Nat) :
    ∀ (fuel : Nat) (pend : List ConnectionPoint) (m : TMap),
      (m.map Prod.fst).Nodup → ((bfsAux adj nid fuel pend m).map Prod.fst).Nodup := by
  intro fuel
  induction fuel with
  | zero => intro pend m h; exact h
  | succ f ih =>
    intro pend m h
    cases pend with
    | nil => exact h
    | cons p ps =>
      simp only [bfsAux]
      exact ih _ _ (discover_nodup_keys nid (adj p) m h)

theorem bfsAux_keys_sub (adj : ConnectionPoint → List ConnectionPoint) (nid : Nat)
    (allK : List ConnectionPoint) (hadj : ∀ p k, k ∈ adj p → k ∈ allK) :
    ∀ (fuel : Nat) (pend : List ConnectionPoint) (m : TMap) (k : ConnectionPoint),
      k ∈ (bfsAux adj nid fuel pend m).map Prod.fst →
      k ∈ m.map Prod.fst ∨ k ∈ pend ∨ k ∈ allK := by
  intro fuel pend m k hk
  obtain ⟨v, hv⟩ := Option.isSome_iff_exists.mp ((alookup_isSome_iff_mem_keys k _).mpr hk)
  rcases bfsAux_lookup_new adj nid fuel pend m k v hv with h | ⟨_, h | ⟨p, hp⟩⟩
  · exact Or.inl ((alookup_isSome_iff_mem_keys k m).mp (by simp [h]))
  · exact Or.inr (Or.inl h)
  · exact Or.inr (Or.inr (hadj p k hp))

theorem length_le_of_nodup_keys (m : TMap) (allK : List ConnectionPoint)
    (hnd : (m.map Prod.fst).Nodup) (hsub : ∀ k ∈ m.map Prod.fst, k ∈ allK) :
    m.length ≤ allK.length := by
  have h1 : (m.map Prod.fst).length ≤ allK.length :=
    (List.subperm_of_subset hnd hsub).length_le
  simpa using h1

/-- Core closure invariant of the traversal: if every pending terminal is
already labelled `nid` and every labelled terminal is either pending or has all
its neighbors labelled with its own node id, then — given enough fuel — the
final map is adjacency-closed with equal labels on adjacent terminals. -/
theorem bfsAux_consistent (adj : ConnectionPoint → List ConnectionPoint)
    (allK : List ConnectionPoint) (hadj : ∀ p k, k ∈ adj p → k ∈ allK)
    (hsym : ∀ a b, a ∈ adj b → b ∈ adj a) (nid : Nat) :
    ∀ (fuel : Nat) (pend : List ConnectionPoint) (m : TMap),
      (∀ k ∈ pend, alookup k m = some nid) →
      (∀ k v, alookup k m = some v →
        k ∈ pend ∨ ∀ k' ∈ adj k, alookup k' m = some v) →
      (m.map Prod.fst).Nodup →
      (∀ k ∈ m.map Prod.fst, k ∈ allK) →
      pend.length + allK.length ≤ fuel + m.length →
      ∀ k v, alookup k (bfsAux adj nid fuel pend m) = some v →
        ∀ k' ∈ adj k, alookup k' (bfsAux adj nid fuel pend m) = some v := by
  intro fuel
  induction fuel with
  | zero =>
    intro pend m hpend hinv hnd hsub hlen k v hk k' hk'
    have hmlen : m.length ≤ allK.length := length_le_of_nodup_keys m allK hnd hsub
    have hpend0 : pend.length = 0 := by omega
    have hpendnil : pend = [] := List.length_eq_zero.mp hpend0
    subst hpendnil
    rcases hinv k v hk with h | h
    · cases h
    · exact h k' hk'
  | succ f ih =>
    intro pend m hpend hinv hnd hsub hlen k v hk k' hk'
    cases pend with
    | nil =>
      rcases hinv k v hk with h | h
      · cases h
      · exact h k' hk'
    | cons p ps =>
      simp only [bfsAux] at hk ⊢
      have hpval : alookup p m = some nid := hpend p (List.mem_cons_self _ _)
      -- every neighbor of `p` is labelled `nid` in the scanned map
      have hnbr : ∀ q ∈ adj p, alookup q (discover nid (adj p) m).1 = some nid := by
        intro q hq
        obtain ⟨w, hw⟩ := Option.isSome_iff_exists.mp (discover_total nid (adj p) m q hq)
        rcases discover_lookup_new nid (adj p) m q w hw with hold | ⟨rfl, _⟩
        · -- `q` was already labelled; its label must be `nid`
          rcases hinv q w hold with hqp | hqset
          · have := hpend q hqp
            rw [this] at hold
            cases hold
            exact hw
          · have hpq : p ∈ adj q := hsym q p hq
            have := hqset p hpq
            rw [hpval] at this
            cases this
            exact hw
        · exact hw
      refine ih (ps ++ (discover nid (adj p) m).2) (discover nid (adj p) m).1 ?_ ?_ ?_ ?_ ?_ k v hk k' hk'
      · -- (i) pending terminals are labelled nid
        intro q hq
        rcases List.mem_append.mp hq with hq | hq
        · exact discover_preserves nid (adj p) m q nid (hpend q (List.mem_cons_of_mem _ hq))
        · exact discover_fresh_lookup nid (adj p) m q hq
      · -- (ii) labelled terminals are pending or settled
        intro q w hq
        rcases discover_lookup_cases nid (adj p) m q w hq with hold | ⟨hweq, hfr⟩
        · rcases hinv q w hold with hqp | hqset
          · cases hqp with
            | head =>
              -- q = p: now settled, with label nid
              right
              have : w = nid := by
                have := discover_preserves nid (adj p) m p w hold
                rw [discover_preserves nid (adj p) m p nid hpval] at this
                cases this
                rfl
              subst this
              exact hnbr
            | tail _ hqp => exact Or.inl (List.mem_append_left _ hqp)
          · right
            intro k'' hk''
            exact discover_preserves nid (adj p) m k'' w (hqset k'' hk'')
        · -- freshly discovered: still pending
          exact Or.inl (List.mem_append_right _ hfr)
      · exact discover_nodup_keys nid (adj p) m hnd
      · -- keys stay inside allK
        intro q hq
        rw [discover_keys] at hq
        rcases List.mem_append.mp hq with hq | hq
        · exact hadj p q (discover_fresh_subset nid (adj p) m q (List.mem_reverse.mp hq))
        · exact hsub q hq
      · -- fuel arithmetic
        have hdl := discover_length nid (adj p) m
        simp only [List.length_append, List.length_cons] at hlen ⊢
        omega

/-! ## Lemmas about the outer node-building loop -/

theorem buildAux_preserves (adj : ConnectionPoint → List ConnectionPoint) (fuel : Nat) :
    ∀ (ts : List ConnectionPoint) (m : TMap) (nid : Nat) (k : ConnectionPoint) (v : Nat),
      alookup k m = some v → alookup k (buildAux adj fuel ts m nid).1 = some v := by
  intro ts
  induction ts with
  | nil => intro m nid k v h; exact h
  | cons t rest ih =>
    intro m nid k v h
    by_cases ht : (alookup t m).isSome
    · simp only [buildAux, ht, if_pos]
      exact ih m nid k v h
    · simp only [buildAux, ht, Bool.false_eq_true, not_false_iff, if_neg]
      have hne : k ≠ t := by
        intro he
        subst he
        rw [h] at ht
        exact ht (by simp)
      exact ih _ _ k v (bfsAux_preserves adj nid fuel [t] _ k v
        (by rw [alookup_insert_of_ne _ _ hne]; exact h))

theorem buildAux_total (adj : ConnectionPoint → List ConnectionPoint) (fuel : Nat) :
    ∀ (ts : List ConnectionPoint) (m : TMap) (nid : Nat) (t : ConnectionPoint),
      t ∈ ts → (alookup t (buildAux adj fuel ts m nid).1).isSome = true := by
  intro ts
  induction ts with
  | nil => intro m nid t h; cases h
  | cons t0 rest ih =>
    intro m nid t h
    by_cases ht : (alookup t0 m).isSome
    · simp only [buildAux, ht, if_pos]
      cases h with
      | head =>
        obtain ⟨v, hv⟩ := Option.isSome_iff_exists.mp ht
        simp [buildAux_preserves adj fuel rest m nid t0 v hv]
      | tail _ h => exact ih m nid t h
    · simp only [buildAux, ht, Bool.false_eq_true, not_false_iff, if_neg]
      cases h with
      | head =>
        have hstart : alookup t0 ((t0, nid) :: m) = some nid := alookup_insert_self _ _ _
        have := bfsAux_preserves adj nid fuel [t0] _ t0 nid hstart
        simp [buildAux_preserves adj fuel rest _ (nid + 1) t0 nid this]
      | tail _ h => exact ih _ _ t h

theorem buildAux_counter_le (adj : ConnectionPoint → List ConnectionPoint) (fuel : Nat) :
    ∀ (ts : List ConnectionPoint) (m : TMap) (nid : Nat),
      nid ≤ (buildAux adj fuel ts m nid).2 := by
  intro ts
  induction ts with
  | nil => intro m nid; exact Nat.le_refl _
  | cons t rest ih =>
    intro m nid
    by_cases ht : (alookup t m).isSome
    · simp only [buildAux, ht, if_pos]
      exact ih m nid
    · simp only [buildAux, ht, Bool.false_eq_true, not_false_iff, if_neg]
      exact Nat.le_trans (Nat.le_succ _) (ih _ (nid + 1))

theorem buildAux_lookup_new (adj : ConnectionPoint → List ConnectionPoint) (fuel : Nat) :
    ∀ (ts : List ConnectionPoint) (m : TMap) (nid : Nat) (k : ConnectionPoint) (v : Nat),
      alookup k (buildAux adj fuel ts m nid).1 = some v →
      alookup k m = some v ∨ nid ≤ v := by
  intro ts
  induction ts with
  | nil => intro m nid k v h; exact Or.inl h
  | cons t rest ih =>
    intro m nid k v h
    by_cases ht : (alookup t m).isSome
    · simp only [buildAux, ht, if_pos] at h
      exact ih m nid k v h
    · simp only [buildAux, ht, Bool.false_eq_true, not_false_iff, if_neg] at h
      rcases ih _ _ k v h with h' | h'
      · rcases bfsAux_lookup_new adj nid fuel [t] _ k v h' with h'' | ⟨hveq, _⟩
        · by_cases hkt : k = t
          · subst hkt
            rw [alookup_insert_self] at h''
            cases h''
            exact Or.inr (Nat.le_refl _)
          · rw [alookup_insert_of_ne _ _ hkt] at h''
            exact Or.inl h''
        · exact Or.inr (Nat.le_of_eq hveq.symm)
      · exact Or.inr (Nat.le_trans (Nat.le_succ _) h')

/-- Through the whole outer loop the map stays adjacency-consistent: adjacent
terminals carry the same node label.  The bundle also maintains key nodup-ness
and the key bound needed for fuel sufficiency. -/
theorem buildAux_consistent (adj : ConnectionPoint → List ConnectionPoint)
    (allK : List ConnectionPoint) (hadj : ∀ p k, k ∈ adj p → k ∈ allK)
    (hsym : ∀ a b, a ∈ adj b → b ∈ adj a) (fuel : Nat) (hfuel : allK.length < fuel) :
    ∀ (ts : List ConnectionPoint) (m : TMap) (nid : Nat),
      (∀ t ∈ ts, t ∈ allK) →
      (m.map Prod.fst).Nodup →
      (∀ k ∈ m.map Prod.fst, k ∈ allK) →
      (∀ k v, alookup k m = some v → ∀ k' ∈ adj k, alookup k' m = some v) →
      ((∀ k v, alookup k (buildAux adj fuel ts m nid).1 = some v →
          ∀ k' ∈ adj k, alookup k' (buildAux adj fuel ts m nid).1 = some v) ∧
        ((buildAux adj fuel ts m nid).1.map Prod.fst).Nodup ∧
        (∀ k ∈ (buildAux adj fuel ts m nid).1.map Prod.fst, k ∈ allK)) := by
  intro ts
  induction ts with
  | nil => intro m nid _ hnd hsub hcons; exact ⟨hcons, hnd, hsub⟩
  | cons t rest ih =>
    intro m nid hts hnd hsub hcons
    by_cases ht : (alookup t m).isSome
    · simp only [buildAux, ht, if_pos]
      exact ih m nid (fun u hu => hts u (List.mem_cons_of_mem _ hu)) hnd hsub hcons
    · simp only [buildAux, ht, Bool.false_eq_true, not_false_iff, if_neg]
      have htK : t ∈ allK := hts t (List.mem_cons_self _ _)
      have htnone : alookup t m = none := Option.not_isSome_iff_eq_none.mp ht
      have htnotkey : t ∉ m.map Prod.fst := by
        intro hmem
        rw [alookup_eq_none_of_not_mem (fun hc => absurd ((alookup_isSome_iff_mem_keys t m).mpr hmem) ht)] at htnone
        exact absurd ((alookup_isSome_iff_mem_keys t m).mpr hmem) ht
      -- invariants for the inner traversal seeded at t
      have hnd' : (((t, nid) :: m).map Prod.fst).Nodup := by
        simp only [List.map_cons]
        exact List.nodup_cons.mpr ⟨htnotkey, hnd⟩
      have hsub' : ∀ k ∈ ((t, nid) :: m).map Prod.fst, k ∈ allK := by
        intro k hk
        simp only [List.map_cons, List.mem_cons] at hk
        rcases hk with rfl | hk
        · exact htK
        · exact hsub k hk
      have hpend' : ∀ k ∈ [t], alookup k ((t, nid) :: m) = some nid := by
        intro k hk
        simp only [List.mem_singleton] at hk
        subst hk
        exact alookup_insert_self _ _ _
      have hinv' : ∀ k v, alookup k ((t, nid) :: m) = some v →
          k ∈ [t] ∨ ∀ k' ∈ adj k, alookup k' ((t, nid) :: m) = some v := by
        intro k v hk
        by_cases hkt : k = t
        · subst hkt
          exact Or.inl (List.mem_singleton.mpr rfl)
        · rw [alookup_insert_of_ne _ _ hkt] at hk
          right
          intro k' hk'
          have hval := hcons k v hk k' hk'
          have hk't : k' ≠ t := by
            intro he
            subst he
            rw [htnone] at hval
            cases hval
          rw [alookup_insert_of_ne _ _ hk't]
          exact hval
      have hlen' : [t].length + allK.length ≤ fuel + ((t, nid) :: m).length := by
        simp only [List.length_singleton, List.length_cons, List.length_nil]
        omega
      have hconsBfs := bfsAux_consistent adj allK hadj hsym nid fuel [t] ((t, nid) :: m)
        hpend' hinv' hnd' hsub' hlen'
      have hndBfs := bfsAux_nodup_keys adj nid fuel [t] ((t, nid) :: m) hnd'
      have hsubBfs : ∀ k ∈ (bfsAux adj nid fuel [t] ((t, nid) :: m)).map Prod.fst, k ∈ allK := by
        intro k hk
        rcases bfsAux_keys_sub adj nid allK hadj fuel [t] ((t, nid) :: m) k hk with h | h | h
        · exact hsub' k h
        · simp only [List.mem_singleton] at h
          subst h
          exact htK
        · exact h
      exact ih _ (nid + 1) (fun u hu => hts u (List.mem_cons_of_mem _ hu)) hndBfs hsubBfs hconsBfs

/-! ## Topology-level consequences -/

/-- Totality of the partition: every terminal of every listed component is
assigned a node. -/
theorem buildTopology_total (comps : List CircuitComponent) (conns : List Connection)
    (c : CircuitComponent) (hc : c ∈ comps) (t : Nat) (ht : t = 0 ∨ t = 1) :
    (alookup ⟨c.id, t⟩ (buildTopology comps conns).1).isSome = true :=
  buildAux_total (adjOf conns) _ (allTerminals comps) [] 0 _ (mem_allTerminals comps c hc t ht)

/-- Terminals mentioned by a connection list all lie in the combined key pool. -/
theorem adjOf_mem_pool (conns : List Connection) (comps : List CircuitComponent) :
    ∀ p k, k ∈ adjOf conns p →
      k ∈ allTerminals comps ++ connTerminals conns := fun p k h =>
  List.mem_append_right _ (mem_connTerminals_of_mem_adjOf conns p k h)

/-- Adjacency closure of the final partition: terminals joined by a single
connection always carry the same node id, and a neighbor of an assigned
terminal is assigned. -/
theorem buildTopology_consistent (comps : List CircuitComponent) (conns : List Connection)
    (k : ConnectionPoint) (v : Nat)
    (h : alookup k (buildTopology comps conns).1 = some v) (k' : ConnectionPoint)
    (hk' : k' ∈ adjOf conns k) : alookup k' (buildTopology comps conns).1 = some v := by
  have hfuel : (allTerminals comps ++ connTerminals conns).length <
      2 * comps.length + 2 * conns.length + 1 := by
    rw [List.length_append, allTerminals_length, connTerminals_length]
    omega
  have hmain := buildAux_consistent (adjOf conns) (allTerminals comps ++ connTerminals conns)
    (adjOf_mem_pool conns comps) (fun a b hab => adjOf_symm conns b a hab)
    (2 * comps.length + 2 * conns.length + 1) hfuel (allTerminals comps) [] 0
    (fun u hu => List.mem_append_left _ hu) (by simp) (by simp)
    (by intro k0 v0 hk0; cases hk0)
  exact hmain.1 k v h k' hk'

theorem buildAux_counter_fresh (adj : ConnectionPoint → List ConnectionPoint) (fuel : Nat)
    (t : ConnectionPoint) (ts : List ConnectionPoint) (m : TMap) (nid : Nat)
    (h : alookup t m = none) : nid + 1 ≤ (buildAux adj fuel (t :: ts) m nid).2 := by
  have ht : ¬(alookup t m).isSome = true := by simp [h]
  simp only [buildAux, ht, Bool.false_eq_true, not_false_iff, if_neg]
  exact buildAux_counter_le _ _ _ _ _

/-- A nonempty component list always produces at least one node. -/
theorem buildTopology_pos (comps : List CircuitComponent) (conns : List Connection)
    (h : comps ≠ []) : 0 < (buildTopology comps conns).2 := by
  cases comps with
  | nil => exact absurd rfl h
  | cons c cs =>
    show 0 < (buildAux (adjOf conns) _ (allTerminals (c :: cs)) [] 0).2
    have he : allTerminals (c :: cs) =
        (⟨c.id, 0⟩ : ConnectionPoint) :: (⟨c.id, 1⟩ : ConnectionPoint) :: allTerminals cs := rfl
    rw [he]
    exact Nat.lt_of_lt_of_le Nat.zero_lt_one (buildAux_counter_fresh _ _ _ _ [] 0 rfl)

/-- A terminal with an empty adjacency list seeds a traversal that stops
immediately. -/
theorem bfsAux_isolated (adj : ConnectionPoint → List ConnectionPoint) (nid fuel : Nat)
    (hfuel : 1 ≤ fuel) (t : ConnectionPoint) (htadj : adj t = []) (m : TMap) :
    bfsAux adj nid fuel [t] m = m := by
  cases fuel with
  | zero => omega
  | succ f =>
    simp only [bfsAux, htadj]
    exact bfsAux_nil_pending adj nid f m

/-- An untouched terminal ends up as the unique key with its node id. -/
theorem buildAux_singleton (adj : ConnectionPoint → List ConnectionPoint) (fuel : Nat)
    (hfuel : 1 ≤ fuel) (t : ConnectionPoint) (htimg : ∀ p, t ∉ adj p) (htadj : adj t = []) :
    ∀ (ts : List ConnectionPoint) (m : TMap) (nid : Nat),
      t ∈ ts → alookup t m = none → (∀ k v, alookup k m = some v → v < nid) →
      ∃ n, alookup t (buildAux adj fuel ts m nid).1 = some n ∧
        ∀ k v, alookup k (buildAux adj fuel ts m nid).1 = some v → v = n → k = t := by
  intro ts
  induction ts with
  | nil => intro m nid ht _ _; cases ht
  | cons t0 rest ih =>
    intro m nid ht htm hvals
    by_cases heq : t0 = t
    · subst heq
      have ht0 : ¬(alookup t0 m).isSome = true := by simp [htm]
      simp only [buildAux, ht0, Bool.false_eq_true, not_false_iff, if_neg]
      rw [bfsAux_isolated adj nid fuel hfuel t0 htadj]
      refine ⟨nid, buildAux_preserves adj fuel rest _ _ t0 nid (alookup_insert_self _ _ _), ?_⟩
      intro k v hk hv
      rcases buildAux_lookup_new adj fuel rest _ _ k v hk with h' | h'
      · by_cases hkt : k = t0
        · exact hkt
        · rw [alookup_insert_of_ne _ _ hkt] at h'
          have := hvals k v h'
          omega
      · omega
    · have htrest : t ∈ rest := by
        cases ht with
        | head => exact absurd rfl heq
        | tail _ h => exact h
      by_cases ht0 : (alookup t0 m).isSome
      · simp only [buildAux, ht0, if_pos]
        exact ih m nid htrest htm hvals
      · simp only [buildAux, ht0, Bool.false_eq_true, not_false_iff, if_neg]
        refine ih _ (nid + 1) htrest ?_ ?_
        · -- t stays unassigned through a traversal it cannot be reached by
          cases hl : alookup t (bfsAux adj nid fuel [t0] ((t0, nid) :: m)) with
          | none => rfl
          | some v =>
            rcases bfsAux_lookup_new adj nid fuel [t0] _ t v hl with h' | ⟨_, h' | ⟨p, hp⟩⟩
            · rw [alookup_insert_of_ne _ _ (fun he => heq he.symm)] at h'
              rw [htm] at h'
              cases h'
            · simp only [List.mem_singleton] at h'
              exact absurd h'.symm heq
            · exact absurd hp (htimg p)
        · intro k v hk
          rcases bfsAux_lookup_new adj nid fuel [t0] _ k v hk with h' | ⟨hveq, _⟩
          · by_cases hkt : k = t0
            · subst hkt
              rw [alookup_insert_self] at h'
              cases h'
              omega
            · rw [alookup_insert_of_ne _ _ hkt] at h'
              exact Nat.lt_trans (hvals k v h') (Nat.lt_succ_self _)
          · omega

/-- A terminal touched by no connection forms a singleton node: it is assigned
a node id carried by no other terminal. -/
theorem buildTopology_singleton (comps : List CircuitComponent) (conns : List Connection)
    (c : CircuitComponent) (hc : c ∈ comps) (t : Nat) (ht : t = 0 ∨ t = 1)
    (huntouched : ∀ conn ∈ conns, conn.start ≠ ⟨c.id, t⟩ ∧ conn.endp ≠ ⟨c.id, t⟩) :
    ∃ n, alookup ⟨c.id, t⟩ (buildTopology comps conns).1 = some n ∧
      ∀ k v, alookup k (buildTopology comps conns).1 = some v → v = n →
        k = (⟨c.id, t⟩ : ConnectionPoint) := by
  have htimg : ∀ p, (⟨c.id, t⟩ : ConnectionPoint) ∉ adjOf conns p := by
    intro p hmem
    rw [mem_adjOf_iff] at hmem
    obtain ⟨conn, hconn, hcase⟩ := hmem
    rcases hcase with ⟨_, he⟩ | ⟨_, he⟩
    · exact (huntouched conn hconn).2 he
    · exact (huntouched conn hconn).1 he
  have htadj : adjOf conns ⟨c.id, t⟩ = [] := adjOf_eq_nil_of_untouched conns _ huntouched
  exact buildAux_singleton (adjOf conns) _ (by omega) _ htimg htadj (allTerminals comps) [] 0
    (mem_allTerminals comps c hc t ht) rfl (by intro k v hk; cases hk)

/-! ## Result-mapper helper lemmas -/

theorem resultFor_fst (t2n : TMap) (ground : Nat) (nim : List (Nat × Nat)) (nv : Nat)
    (cwc : List CircuitComponent) (sol : List ℚ) (c : CircuitComponent) :
    (resultFor t2n ground nim nv cwc sol c).1 = c.id := by
  unfold resultFor
  cases alookup ⟨c.id, 0⟩ t2n <;> cases alookup ⟨c.id, 1⟩ t2n <;> rfl

theorem zeroResults_map_fst (comps : List CircuitComponent) :
    (zeroResults comps).map Prod.fst = comps.map (fun c => c.id) := by
  simp [zeroResults]

theorem zeroResults_mem (comps : List CircuitComponent) (p : String × (ℚ × ℚ))
    (hp : p ∈ zeroResults comps) : p.2 = (0, 0) := by
  simp only [zeroResults, List.mem_map] at hp
  obtain ⟨c, _, rfl⟩ := hp
  rfl

/-! ## Claim theorems -/

/- Batteries marks the arithmetic of `Rat` irreducible; concrete runs of the
solver are evaluated by `decide`, which needs them reducible. -/
attribute [local semireducible] Rat.mul Rat.inv Rat.add Rat.sub Rat.ofScientific

/-- C1.  For every input whose component ids are unique, the key list of the
result mapping returned by `runSimulation` is either empty or exactly the input
component id list — never a proper non-empty subset, and never containing an id
outside the input. -/
theorem C1_result_key_set (comps : List CircuitComponent) (conns : List Connection)
    (_hids : (comps.map (fun c => c.id)).Nodup) :
    runSimulation comps conns = [] ∨
      (runSimulation comps conns).map Prod.fst = comps.map (fun c => c.id) := by
  simp only [runSimulation]
  split
  · exact Or.inl rfl
  split
  · exact Or.inl rfl
  split
  · exact Or.inr (zeroResults_map_fst comps)
  split
  · exact Or.inr (zeroResults_map_fst comps)
  split
  · exact Or.inl rfl
  · right
    simp [List.map_map, Function.comp_def, resultFor_fst]

/-- Witness for C1 at the series-loop circuit. -/
theorem C1_result_key_set_witness :
    (([⟨"V1", ComponentType.PowerSource, 10⟩, ⟨"R1", ComponentType.Resistor, 10⟩] :
        List CircuitComponent).map (fun c => c.id)).Nodup ∧
      (runSimulation [⟨"V1", ComponentType.PowerSource, 10⟩, ⟨"R1", ComponentType.Resistor, 10⟩]
          [] = [] ∨
        (runSimulation [⟨"V1", ComponentType.PowerSource, 10⟩, ⟨"R1", ComponentType.Resistor, 10⟩]
            []).map Prod.fst =
          ([⟨"V1", ComponentType.PowerSource, 10⟩, ⟨"R1", ComponentType.Resistor, 10⟩] :
            List CircuitComponent).map (fun c => c.id)) :=
  ⟨by decide, C1_result_key_set _ [] (by decide)⟩

/-- C6.  A non-empty component list containing no PowerSource short-circuits to
the all-zero mapping: every component reports 0 V and 0 A, and the remaining
pipeline stages (MNA formulation, linear solve, result mapping) are skipped —
the result does not depend on the connection list at all. -/
theorem C6_passive_network (comps : List CircuitComponent) (conns : List Connection)
    (hne : comps ≠ []) (hnops : ∀ c ∈ comps, c.type ≠ ComponentType.PowerSource) :
    runSimulation comps conns = zeroResults comps := by
  have hfilter : comps.filter (fun c => decide (c.type = ComponentType.PowerSource)) = [] :=
    List.filter_eq_nil_iff.mpr (by intro c hc; simpa using hnops c hc)
  have hpos := buildTopology_pos comps conns hne
  simp only [runSimulation, hfilter, if_neg hne]
  rw [if_neg (by omega)]

/-- Witness for C6 at a two-resistor passive circuit. -/
theorem C6_passive_network_witness :
    ([⟨"R1", ComponentType.Resistor, 10⟩, ⟨"C1", ComponentType.Capacitor, 5⟩] :
        List CircuitComponent) ≠ [] ∧
      runSimulation [⟨"R1", ComponentType.Resistor, 10⟩, ⟨"C1", ComponentType.Capacitor, 5⟩]
          [⟨⟨"R1", 1⟩, ⟨"C1", 0⟩⟩] =
        zeroResults [⟨"R1", ComponentType.Resistor, 10⟩, ⟨"C1", ComponentType.Capacitor, 5⟩] :=
  ⟨by decide, C6_passive_network _ _ (by decide) (by decide)⟩

/-- C9.  The Ohm's-law division in the result mapper is guarded: a resistor for
which no branch-current-variable component shares its id — the exact condition
under which `resultFor` divides by `c.value` — always has value at least
`1e-9`, hence a strictly positive divisor. -/
theorem C9_ohm_divisor_bound (comps : List CircuitComponent) (c : CircuitComponent)
    (hc : c ∈ comps) (hr : c.type = ComponentType.Resistor)
    (hnone : findIdxA (fun d => d.id == c.id) (cwcOf comps) = none) :
    shortEps ≤ c.value ∧ 0 < c.value := by
  rcases lt_or_le c.value shortEps with hlt | hge
  · exfalso
    have hmem : c ∈ cwcOf comps := List.mem_filter.mpr ⟨hc, by simp [hr, hlt]⟩
    have := (findIdxA_eq_none_iff _ _).mp hnone c hmem
    simp at this
  · exact ⟨hge, lt_of_lt_of_le (by norm_num [shortEps]) hge⟩

-- Witness for C9 at a normal resistor.
theorem C9_ohm_divisor_bound_witness :
    (⟨"R1", ComponentType.Resistor, 10⟩ : CircuitComponent) ∈
        ([⟨"V1", ComponentType.PowerSource, 10⟩, ⟨"R1", ComponentType.Resistor, 10⟩] :
          List CircuitComponent) ∧
      (shortEps ≤ (10 : ℚ) ∧ (0 : ℚ) < 10) :=
  ⟨by decide,
    C9_ohm_divisor_bound [⟨"V1", ComponentType.PowerSource, 10⟩,
      ⟨"R1", ComponentType.Resistor, 10⟩] ⟨"R1", ComponentType.Resistor, 10⟩ (by decide)
      rfl (by decide)⟩

/-- C8.  The topology builder assigns every terminal of every listed component
to exactly one electrical node, and a terminal touched by no connection forms a
singleton node: its node id is carried by no other terminal. -/
theorem C8_partition (comps : List CircuitComponent) (conns : List Connection)
    (c : CircuitComponent) (hc : c ∈ comps) (t : Nat) (ht : t = 0 ∨ t = 1) :
    (∃ n, alookup ⟨c.id, t⟩ (buildTopology comps conns).1 = some n ∧
        ∀ n', alookup ⟨c.id, t⟩ (buildTopology comps conns).1 = some n' → n' = n) ∧
      ((∀ conn ∈ conns, conn.start ≠ ⟨c.id, t⟩ ∧ conn.endp ≠ ⟨c.id, t⟩) →
        ∃ n, alookup ⟨c.id, t⟩ (buildTopology comps conns).1 = some n ∧
          ∀ k v, alookup k (buildTopology comps conns).1 = some v → v = n →
            k = (⟨c.id, t⟩ : ConnectionPoint)) := by
  constructor
  · obtain ⟨n, hn⟩ := Option.isSome_iff_exists.mp (buildTopology_total comps conns c hc t ht)
    exact ⟨n, hn, fun n' hn' => by rw [hn] at hn'; cases hn'; rfl⟩
  · intro huntouched
    exact buildTopology_singleton comps conns c hc t ht huntouched

/-- Witness for C8 at a single isolated resistor. -/
theorem C8_partition_witness :
    ((⟨"R1", ComponentType.Resistor, 10⟩ : CircuitComponent) ∈
        ([⟨"R1", ComponentType.Resistor, 10⟩] : List CircuitComponent)) ∧
      (∃ n, alookup ⟨"R1", 0⟩ (buildTopology [⟨"R1", ComponentType.Resistor, 10⟩] []).1 =
          some n ∧
        ∀ n', alookup ⟨"R1", 0⟩ (buildTopology [⟨"R1", ComponentType.Resistor, 10⟩] []).1 =
            some n' → n' = n) :=
  ⟨by decide,
    (C8_partition [⟨"R1", ComponentType.Resistor, 10⟩] [] ⟨"R1", ComponentType.Resistor, 10⟩
      (by decide) 0 (Or.inl rfl)).1⟩

/-- One-step wire adjacency: `b` is listed among `a`'s neighbors. -/
def adjacentIn (conns : List Connection) (a b : ConnectionPoint) : Prop :=
  b ∈ adjOf conns a

theorem buildTopology_path (comps : List CircuitComponent) (conns : List Connection)
    (a b : ConnectionPoint) (h : Relation.ReflTransGen (adjacentIn conns) a b) (n : Nat)
    (ha : alookup a (buildTopology comps conns).1 = some n) :
    alookup b (buildTopology comps conns).1 = some n := by
  induction h with
  | refl => exact ha
  | tail _ hbc ih => exact buildTopology_consistent comps conns _ n ih _ hbc

/-- C10.  Connections through component ids absent from the component list
still conduct: whenever a chain of connections (possibly passing through
phantom terminals) links a terminal of listed component `A` to a terminal of
listed component `B`, the traversal places both terminals in the same
electrical node. -/
theorem C10_phantom_junction (comps : List CircuitComponent) (conns : List Connection)
    (A B : CircuitComponent) (hA : A ∈ comps) (_hB : B ∈ comps) (ta tb : Nat)
    (hta : ta = 0 ∨ ta = 1) (_htb : tb = 0 ∨ tb = 1)
    (hpath : Relation.ReflTransGen (adjacentIn conns) ⟨A.id, ta⟩ ⟨B.id, tb⟩) :
    ∃ n, alookup ⟨A.id, ta⟩ (buildTopology comps conns).1 = some n ∧
      alookup ⟨B.id, tb⟩ (buildTopology comps conns).1 = some n := by
  obtain ⟨n, hn⟩ := Option.isSome_iff_exists.mp (buildTopology_total comps conns A hA ta hta)
  exact ⟨n, hn, buildTopology_path comps conns _ _ hpath n hn⟩

/-! ## Concrete circuits used by the remaining claims -/

/-- Series ring of C3: a 10 V source and 10 Ω and 40 Ω resistors, each wired
terminal 1 → terminal 0. -/
def seriesComps : List CircuitComponent :=
  [⟨"V1", ComponentType.PowerSource, 10⟩, ⟨"R1", ComponentType.Resistor, 10⟩,
   ⟨"R2", ComponentType.Resistor, 40⟩]

def seriesConns : List Connection :=
  [⟨⟨"V1", 1⟩, ⟨"R1", 0⟩⟩, ⟨⟨"R1", 1⟩, ⟨"R2", 0⟩⟩, ⟨⟨"R2", 1⟩, ⟨"V1", 0⟩⟩]

/-- C3.  The series loop of one PowerSource(10 V) with resistors 10 Ω and 40 Ω
wired terminal-1→terminal-0 into a closed ring reports current 0.2 A on all
three components, 2 V on the 10 Ω resistor, 8 V on the 40 Ω resistor and 10 V
on the source. -/
theorem C3_series_loop :
    runSimulation seriesComps seriesConns =
      [("V1", (10, 1/5)), ("R1", (2, 1/5)), ("R2", (8, 1/5))] := by
  decide

/-- The same ring with 10 GΩ resistors: elimination meets a pivot of 2·10⁻¹⁰,
below the spec's claimed ε = 10⁻⁹ but above the code's 10⁻¹². -/
def tinyPivotComps : List CircuitComponent :=
  [⟨"V1", ComponentType.PowerSource, 10⟩, ⟨"R1", ComponentType.Resistor, 10 ^ 10⟩,
   ⟨"R2", ComponentType.Resistor, 10 ^ 10⟩]

/-- The same ring with 10 TΩ resistors: the step-1 pivot 2·10⁻¹³ now falls
below the code's 10⁻¹² threshold. -/
def hugePivotComps : List CircuitComponent :=
  [⟨"V1", ComponentType.PowerSource, 10⟩, ⟨"R1", ComponentType.Resistor, 10 ^ 13⟩,
   ⟨"R2", ComponentType.Resistor, 10 ^ 13⟩]

/-- Counterexample to C2 as stated: on `tinyPivotComps` the post-swap pivot of
elimination step 1 has magnitude 2·10⁻¹⁰ < 10⁻⁹, yet the system is not declared
singular — `runSimulation` returns the full (non-empty) mapping, so 10⁻⁹ is not
the abort threshold. -/
theorem C2_pivot_threshold_counterexample :
    (|entry
        (swapRows
          (eliminateBelow
            (swapRows (augmented (setupOf tinyPivotComps seriesConns
                ⟨"V1", ComponentType.PowerSource, 10⟩).1
              (setupOf tinyPivotComps seriesConns
                ⟨"V1", ComponentType.PowerSource, 10⟩).2) 0
              (findMaxRow (augmented (setupOf tinyPivotComps seriesConns
                ⟨"V1", ComponentType.PowerSource, 10⟩).1
                (setupOf tinyPivotComps seriesConns
                  ⟨"V1", ComponentType.PowerSource, 10⟩).2) 0 3)) 0) 1
          (findMaxRow
            (eliminateBelow
              (swapRows (augmented (setupOf tinyPivotComps seriesConns
                  ⟨"V1", ComponentType.PowerSource, 10⟩).1
                (setupOf tinyPivotComps seriesConns
                  ⟨"V1", ComponentType.PowerSource, 10⟩).2) 0
                (findMaxRow (augmented (setupOf tinyPivotComps seriesConns
                  ⟨"V1", ComponentType.PowerSource, 10⟩).1
                  (setupOf tinyPivotComps seriesConns
                    ⟨"V1", ComponentType.PowerSource, 10⟩).2) 0 3)) 0) 1 3)) 1 1| <
        1 / 10 ^ 9) ∧
      runSimulation tinyPivotComps seriesConns =
        [("V1", (10, 1/2000000000)), ("R1", (5, 1/2000000000)),
         ("R2", (5, 1/2000000000))] := by
  decide

theorem cwcOf_ne_nil_of_filter_ps (comps : List CircuitComponent) (ps : CircuitComponent)
    (rest : List CircuitComponent)
    (hfilter : comps.filter (fun c => decide (c.type = ComponentType.PowerSource)) =
      ps :: rest) : cwcOf comps ≠ [] := by
  have hps : ps ∈ comps.filter (fun c => decide (c.type = ComponentType.PowerSource)) := by
    rw [hfilter]
    exact List.mem_cons_self _ _
  have h2 := List.mem_filter.mp hps
  have hmem : ps ∈ cwcOf comps := by
    refine List.mem_filter.mpr ⟨h2.1, ?_⟩
    have : ps.type = ComponentType.PowerSource := by simpa using h2.2
    simp [this]
  intro h
  rw [h] at hmem
  cases hmem

/-- C2 amended.  The abort threshold of the Gaussian elimination is `1e-12`,
not `1e-9`: a forward-elimination step aborts exactly when the post-swap pivot
magnitude falls below `singularEps = 1e-12`; whenever the solve aborts the
mapping is empty (total failure), whenever it succeeds the mapping is full; and
the ring whose step-1 pivot is 2·10⁻¹³ < 10⁻¹² is indeed rejected with the
empty mapping. -/
theorem C2_singular_amended :
    (∀ (Ab : List (List ℚ)) (i n fuel : Nat),
        forwardElim n (fuel + 1) i Ab = none ↔
          i < n ∧ (|entry (swapRows Ab i (findMaxRow Ab i n)) i i| < singularEps ∨
            (¬|entry (swapRows Ab i (findMaxRow Ab i n)) i i| < singularEps ∧
              forwardElim n fuel (i + 1)
                (eliminateBelow (swapRows Ab i (findMaxRow Ab i n)) i) = none))) ∧
    (∀ (comps : List CircuitComponent) (conns : List Connection) (ps : CircuitComponent)
        (rest : List CircuitComponent), comps ≠ [] →
        comps.filter (fun c => decide (c.type = ComponentType.PowerSource)) = ps :: rest →
        (solveLinearSystem (setupOf comps conns ps).1 (setupOf comps conns ps).2 = none →
          runSimulation comps conns = []) ∧
        (∀ sol, solveLinearSystem (setupOf comps conns ps).1 (setupOf comps conns ps).2 =
            some sol →
          (runSimulation comps conns).map Prod.fst = comps.map (fun c => c.id))) ∧
    runSimulation hugePivotComps seriesConns = [] := by
  refine ⟨?_, ?_, by decide⟩
  · intro Ab i n fuel
    simp only [forwardElim]
    by_cases hin : i < n
    · simp only [hin, if_pos, true_and]
      by_cases hpiv : |entry (swapRows Ab i (findMaxRow Ab i n)) i i| < singularEps
      · simp [hpiv]
      · simp [hpiv]
    · simp [hin]
  · intro comps conns ps rest hne hfilter
    have hnz : ¬(buildTopology comps conns).2 = 0 := by
      have := buildTopology_pos comps conns hne
      omega
    have hms : ¬((buildTopology comps conns).2 - 1 + (cwcOf comps).length = 0) := by
      have h1 : cwcOf comps ≠ [] := cwcOf_ne_nil_of_filter_ps comps ps rest hfilter
      have h2 : 0 < (cwcOf comps).length := List.length_pos.mpr h1
      omega
    constructor
    · intro hnone
      simp only [runSimulation, hfilter, if_neg hne, if_neg hnz, if_neg hms, hnone]
    · intro sol hsol
      simp only [runSimulation, hfilter, if_neg hne, if_neg hnz, if_neg hms, hsol]
      simp [List.map_map, Function.comp_def, resultFor_fst]

-- Witness for C2's amended claim, instantiating the generic parts on the
-- series-ring circuit whose solve succeeds.
theorem C2_singular_amended_witness :
    (forwardElim 1 1 0 [[(0 : ℚ)]] = none ↔
        0 < 1 ∧ (|entry (swapRows [[(0 : ℚ)]] 0 (findMaxRow [[(0 : ℚ)]] 0 1)) 0 0| <
            singularEps ∨
          (¬|entry (swapRows [[(0 : ℚ)]] 0 (findMaxRow [[(0 : ℚ)]] 0 1)) 0 0| < singularEps ∧
            forwardElim 1 0 1
              (eliminateBelow (swapRows [[(0 : ℚ)]] 0 (findMaxRow [[(0 : ℚ)]] 0 1)) 0) =
              none))) ∧
      (solveLinearSystem (setupOf seriesComps seriesConns
            ⟨"V1", ComponentType.PowerSource, 10⟩).1
          (setupOf seriesComps seriesConns ⟨"V1", ComponentType.PowerSource, 10⟩).2 = none →
        runSimulation seriesComps seriesConns = []) :=
  ⟨C2_singular_amended.1 [[(0 : ℚ)]] 0 1 0,
    (C2_singular_amended.2.1 seriesComps seriesConns ⟨"V1", ComponentType.PowerSource, 10⟩ []
      (by decide) (by decide)).1⟩

/-- Series V-R loop with an oscilloscope probe wired across the source. -/
def probeComps : List CircuitComponent :=
  [⟨"V1", ComponentType.PowerSource, 10⟩, ⟨"R1", ComponentType.Resistor, 10⟩,
   ⟨"O1", ComponentType.Oscilloscope, 0⟩]

def probeConns : List Connection :=
  [⟨⟨"V1", 1⟩, ⟨"R1", 0⟩⟩, ⟨⟨"R1", 1⟩, ⟨"V1", 0⟩⟩, ⟨⟨"O1", 0⟩, ⟨"V1", 0⟩⟩,
   ⟨⟨"O1", 1⟩, ⟨"V1", 1⟩⟩]

/-- Counterexample to C4 as stated: with an oscilloscope wired across the 10 V
source the solve completes (the mapping is full and non-empty), yet the
oscilloscope is reported with voltage 10, not 0 — the result mapper reports
`|v2 − v1|` for every component, oscilloscopes included. -/
theorem C4_oscilloscope_counterexample :
    runSimulation probeComps probeConns =
        [("V1", (10, 1)), ("R1", (10, 1)), ("O1", (10, 0))] ∧
      alookup "O1" (runSimulation probeComps probeConns) = some (10, 0) ∧
      ((10 : ℚ) = 0) = False := by
  refine ⟨by decide, by decide, ?_⟩
  simp only [eq_iff_iff, iff_false]
  norm_num

theorem findIdxA_id_none (comps : List CircuitComponent) (c : CircuitComponent)
    (hids : (comps.map (fun d => d.id)).Nodup) (hc : c ∈ comps) (hnotmem : c ∉ cwcOf comps) :
    findIdxA (fun d => d.id == c.id) (cwcOf comps) = none := by
  rw [findIdxA_eq_none_iff]
  intro d hd
  have hdc : d ∈ comps := List.mem_of_mem_filter hd
  intro hbeq
  have hid : d.id = c.id := by simpa using hbeq
  have : d = c := List.inj_on_of_nodup_map hids hdc hc hid
  subst this
  exact hnotmem hd

theorem resultFor_oscilloscope_current (t2n : TMap) (ground : Nat) (nim : List (Nat × Nat))
    (nv : Nat) (cwc : List CircuitComponent) (sol : List ℚ) (c : CircuitComponent)
    (hosc : c.type = ComponentType.Oscilloscope)
    (hnone : findIdxA (fun d => d.id == c.id) cwc = none) :
    (resultFor t2n ground nim nv cwc sol c).2.2 = 0 := by
  unfold resultFor
  cases alookup ⟨c.id, 0⟩ t2n with
  | none => rfl
  | some n1 =>
    cases alookup ⟨c.id, 1⟩ t2n with
    | none => rfl
    | some n2 =>
      simp only [hnone, hosc]

/-- C4 amended.  An Oscilloscope is never a branch-current component, is never
stamped into the matrix, and always reports current 0; its reported voltage,
however, is the absolute inter-terminal node-voltage difference like every
other component, which is not 0 in general. -/
theorem C4_oscilloscope_amended (comps : List CircuitComponent) (conns : List Connection)
    (hids : (comps.map (fun c => c.id)).Nodup) (c : CircuitComponent) (hc : c ∈ comps)
    (hosc : c.type = ComponentType.Oscilloscope) :
    c ∉ cwcOf comps ∧
      (∀ (t2n : TMap) (ground : Nat) (nim : List (Nat × Nat)) (A : Nat → Nat → ℚ),
        stampResistor t2n ground nim A c = A) ∧
      (∀ p ∈ runSimulation comps conns, p.1 = c.id → p.2.2 = 0) := by
  have hnotmem : c ∉ cwcOf comps := by
    intro hmem
    have := (List.mem_filter.mp hmem).2
    simp [hosc] at this
  refine ⟨hnotmem, ?_, ?_⟩
  · intro t2n ground nim A
    unfold stampResistor
    rw [if_neg]
    simp [hosc]
  · intro p hp hpid
    simp only [runSimulation] at hp
    split at hp
    · cases hp
    · split at hp
      · cases hp
      · split at hp
        · rw [zeroResults_mem comps p hp]
        · split at hp
          · rw [zeroResults_mem comps p hp]
          · split at hp
            · cases hp
            · simp only [List.mem_map] at hp
              obtain ⟨c', hc', rfl⟩ := hp
              rw [resultFor_fst] at hpid
              have hcc : c' = c := List.inj_on_of_nodup_map hids hc' hc hpid
              subst hcc
              exact resultFor_oscilloscope_current _ _ _ _ _ _ c' hosc
                (findIdxA_id_none comps c' hids hc' hnotmem)

-- Witness for C4's amended claim at the probe circuit.
theorem C4_oscilloscope_amended_witness :
    ((probeComps.map (fun c => c.id)).Nodup ∧
        (⟨"O1", ComponentType.Oscilloscope, 0⟩ : CircuitComponent) ∈ probeComps) ∧
      (⟨"O1", ComponentType.Oscilloscope, 0⟩ : CircuitComponent) ∉ cwcOf probeComps :=
  ⟨⟨by decide, by decide⟩,
    (C4_oscilloscope_amended probeComps probeConns (by decide)
      ⟨"O1", ComponentType.Oscilloscope, 0⟩ (by decide) rfl).1⟩

/-- A single 10 V source whose two terminals are joined through a phantom
component id "G" that appears in no component list. -/
def shortedComps : List CircuitComponent := [⟨"V1", ComponentType.PowerSource, 10⟩]

def shortedConns : List Connection := [⟨⟨"V1", 1⟩, ⟨"G", 0⟩⟩, ⟨⟨"G", 0⟩, ⟨"V1", 0⟩⟩]

/-- Counterexample to C5 as stated: these connections reference the id "G" of
no listed component, and the solve IS aborted — the phantom chain shorts the
source, the system is singular and the result mapping is empty, so the rest of
the circuit is not "still solved and reported normally". -/
theorem C5_dangling_counterexample :
    shortedComps.all (fun c => !(c.id == "G")) = true ∧
      (shortedConns.map fun conn => conn.endp.componentId) = ["G", "V1"] ∧
      runSimulation shortedComps shortedConns = [] := by
  decide

/-- Series loop in which the wire from the source to the resistor passes
through the phantom junction id "G". -/
def phantomComps : List CircuitComponent :=
  [⟨"V1", ComponentType.PowerSource, 10⟩, ⟨"R1", ComponentType.Resistor, 10⟩]

def phantomConns : List Connection :=
  [⟨⟨"V1", 1⟩, ⟨"G", 0⟩⟩, ⟨⟨"G", 0⟩, ⟨"R1", 0⟩⟩, ⟨⟨"R1", 1⟩, ⟨"V1", 0⟩⟩]

/-- C5 amended.  A connection referencing a nonexistent componentId never makes
a listed component's terminals unresolvable — the topology builder assigns a
node to both terminals of every listed component for every input, so the
defensive (0, 0) branch of the result mapper is unreachable — and such phantom
references act as junctions through which the circuit is still solved normally
when the resulting topology is solvable (shown here on a series loop routed
through a phantom junction); but a phantom chain can also short the source and
make the whole solve fail with the empty mapping. -/
theorem C5_dangling_amended :
    (∀ (comps : List CircuitComponent) (conns : List Connection) (c : CircuitComponent),
        c ∈ comps →
        (alookup ⟨c.id, 0⟩ (buildTopology comps conns).1).isSome = true ∧
        (alookup ⟨c.id, 1⟩ (buildTopology comps conns).1).isSome = true) ∧
      runSimulation phantomComps phantomConns = [("V1", (10, 1)), ("R1", (10, 1))] := by
  constructor
  · intro comps conns c hc
    exact ⟨buildTopology_total comps conns c hc 0 (Or.inl rfl),
      buildTopology_total comps conns c hc 1 (Or.inr rfl)⟩
  · decide

-- Witness for C5's amended claim at the phantom-junction circuit.
theorem C5_dangling_amended_witness :
    ((⟨"V1", ComponentType.PowerSource, 10⟩ : CircuitComponent) ∈ phantomComps) ∧
      (alookup ⟨"V1", 0⟩ (buildTopology phantomComps phantomConns).1).isSome = true :=
  ⟨by decide,
    (C5_dangling_amended.1 phantomComps phantomConns ⟨"V1", ComponentType.PowerSource, 10⟩
      (by decide)).1⟩

/-! ## Value congruence: the solver ignores the numeric value of ideal-short
resistors, so replacing one near-zero value by another cannot change any
result.  This is the engine behind C7. -/

/-- Two components that the solver cannot distinguish: either identical, or
resistors with the same id whose values are both below the short threshold. -/
def ValueCongr (a b : CircuitComponent) : Prop :=
  a = b ∨ (a.id = b.id ∧ a.type = ComponentType.Resistor ∧
    b.type = ComponentType.Resistor ∧ a.value < shortEps ∧ b.value < shortEps)

theorem ValueCongr.id_eq {a b : CircuitComponent} (h : ValueCongr a b) : a.id = b.id := by
  rcases h with rfl | ⟨hid, _⟩
  · rfl
  · exact hid

theorem allTerminals_congr (l l' : List CircuitComponent) (h : List.Forall₂ ValueCongr l l') :
    allTerminals l = allTerminals l' := by
  induction h with
  | nil => rfl
  | cons hab htail ih =>
    simp only [allTerminals, List.foldr_cons] at ih ⊢
    rw [hab.id_eq, ih]

theorem buildTopology_congr (l l' : List CircuitComponent) (conns : List Connection)
    (h : List.Forall₂ ValueCongr l l') : buildTopology l conns = buildTopology l' conns := by
  unfold buildTopology
  rw [allTerminals_congr l l' h, h.length_eq]

theorem filterPS_congr (l l' : List CircuitComponent) (h : List.Forall₂ ValueCongr l l') :
    l.filter (fun c => decide (c.type = ComponentType.PowerSource)) =
      l'.filter (fun c => decide (c.type = ComponentType.PowerSource)) := by
  induction h with
  | nil => rfl
  | cons hab htail ih =>
    rcases hab with rfl | ⟨_, hty, hty', _, _⟩
    · simp only [List.filter_cons]
      split
      · rw [ih]
      · exact ih
    · simp only [List.filter_cons, hty, hty']
      simpa using ih

theorem cwcOf_congr (l l' : List CircuitComponent) (h : List.Forall₂ ValueCongr l l') :
    List.Forall₂ ValueCongr (cwcOf l) (cwcOf l') := by
  induction h with
  | nil => exact List.Forall₂.nil
  | cons hab htail ih =>
    rcases hab with rfl | ⟨hid, hty, hty', hv, hv'⟩
    · simp only [cwcOf, List.filter_cons]
      split
      · exact List.Forall₂.cons (Or.inl rfl) ih
      · exact ih
    · simp only [cwcOf, List.filter_cons]
      rw [if_pos (by simp [hty, hv]), if_pos (by simp [hty', hv'])]
      exact List.Forall₂.cons (Or.inr ⟨hid, hty, hty', hv, hv'⟩) ih

theorem stampResistor_congr (t2n : TMap) (g : Nat) (nim : List (Nat × Nat))
    (A : Nat → Nat → ℚ) (a b : CircuitComponent) (hab : ValueCongr a b) :
    stampResistor t2n g nim A a = stampResistor t2n g nim A b := by
  rcases hab with rfl | ⟨_, _, _, hv, hv'⟩
  · rfl
  · unfold stampResistor
    rw [if_neg (fun hcon => absurd hcon.2 (not_le.mpr hv)),
      if_neg (fun hcon => absurd hcon.2 (not_le.mpr hv'))]

theorem foldl_stampResistor_congr (t2n : TMap) (g : Nat) (nim : List (Nat × Nat)) :
    ∀ (l l' : List CircuitComponent), List.Forall₂ ValueCongr l l' →
      ∀ A, l.foldl (stampResistor t2n g nim) A = l'.foldl (stampResistor t2n g nim) A := by
  intro l l' h
  induction h with
  | nil => intro A; rfl
  | cons hab htail ih =>
    intro A
    simp only [List.foldl_cons]
    rw [stampResistor_congr t2n g nim A _ _ hab]
    exact ih _

theorem stampCurrent_congr (t2n : TMap) (g : Nat) (nim : List (Nat × Nat)) (nv : Nat)
    (st : (Nat → Nat → ℚ) × (Nat → ℚ)) (i : Nat) (a b : CircuitComponent)
    (hab : ValueCongr a b) :
    stampCurrent t2n g nim nv st (i, a) = stampCurrent t2n g nim nv st (i, b) := by
  rcases hab with rfl | ⟨hid, hty, hty', _, _⟩
  · rfl
  · unfold stampCurrent
    simp [hid, hty, hty']

theorem foldl_stampCurrent_congr (t2n : TMap) (g : Nat) (nim : List (Nat × Nat)) (nv : Nat) :
    ∀ (l l' : List CircuitComponent), List.Forall₂ ValueCongr l l' →
      ∀ (n : Nat) (st : (Nat → Nat → ℚ) × (Nat → ℚ)),
        (List.enumFrom n l).foldl (stampCurrent t2n g nim nv) st =
          (List.enumFrom n l').foldl (stampCurrent t2n g nim nv) st := by
  intro l l' h
  induction h with
  | nil => intro n st; rfl
  | cons hab htail ih =>
    intro n st
    simp only [List.enumFrom, List.foldl_cons]
    rw [stampCurrent_congr t2n g nim nv st n _ _ hab]
    exact ih (n + 1) _

theorem mnaSystem_congr (l l' : List CircuitComponent) (h : List.Forall₂ ValueCongr l l')
    (t2n : TMap) (g : Nat) (nim : List (Nat × Nat)) (nv ms : Nat) :
    mnaSystem l t2n g nim nv ms = mnaSystem l' t2n g nim nv ms := by
  simp only [mnaSystem, enumList, List.enum,
    foldl_stampResistor_congr t2n g nim l l' h,
    foldl_stampCurrent_congr t2n g nim nv (cwcOf l) (cwcOf l') (cwcOf_congr l l' h) 0]

theorem setupOf_congr (l l' : List CircuitComponent) (conns : List Connection)
    (ps : CircuitComponent) (h : List.Forall₂ ValueCongr l l') :
    setupOf l conns ps = setupOf l' conns ps := by
  unfold setupOf
  rw [buildTopology_congr l l' conns h, (cwcOf_congr l l' h).length_eq,
    mnaSystem_congr l l' h]

theorem zeroResults_congr (l l' : List CircuitComponent) (h : List.Forall₂ ValueCongr l l') :
    zeroResults l = zeroResults l' := by
  induction h with
  | nil => rfl
  | cons hab htail ih =>
    simp only [zeroResults, List.map_cons] at ih ⊢
    rw [hab.id_eq, ih]

theorem findIdxA_id_congr (x : String) (l l' : List CircuitComponent)
    (h : List.Forall₂ ValueCongr l l') :
    findIdxA (fun d => d.id == x) l = findIdxA (fun d => d.id == x) l' := by
  induction h with
  | nil => rfl
  | cons hab htail ih =>
    simp only [findIdxA, hab.id_eq, ih]

theorem findIdxA_isSome_of_mem {α : Type} (p : α → Bool) (l : List α) (a : α) (ha : a ∈ l)
    (hpa : p a = true) : findIdxA p l ≠ none := by
  intro hnone
  exact absurd hpa (by simpa using (findIdxA_eq_none_iff p l).mp hnone a ha)

theorem resultFor_congr (t2n : TMap) (g : Nat) (nim : List (Nat × Nat)) (nv : Nat)
    (sol : List ℚ) (cwcA cwcB : List CircuitComponent) (a b : CircuitComponent)
    (hab : ValueCongr a b)
    (hfind : findIdxA (fun d => d.id == a.id) cwcA = findIdxA (fun d => d.id == a.id) cwcB)
    (hshort : a.type = ComponentType.Resistor → a.value < shortEps →
      findIdxA (fun d => d.id == a.id) cwcA ≠ none) :
    resultFor t2n g nim nv cwcA sol a = resultFor t2n g nim nv cwcB sol b := by
  rcases hab with rfl | ⟨hid, hty, hty', hv, hv'⟩
  · unfold resultFor
    rw [hfind]
  · unfold resultFor
    rw [← hid]
    cases alookup ⟨a.id, 0⟩ t2n with
    | none => rfl
    | some n1 =>
      cases alookup ⟨a.id, 1⟩ t2n with
      | none => rfl
      | some n2 =>
        cases hf : findIdxA (fun d => d.id == a.id) cwcA with
        | none => exact absurd hf (hshort hty hv)
        | some i =>
          have hf' : findIdxA (fun d => d.id == a.id) cwcB = some i := by
            rw [← hfind]
            exact hf
          simp only [hf, hf']

theorem map_resultFor_congr (t2n : TMap) (g : Nat) (nim : List (Nat × Nat)) (nv : Nat)
    (sol : List ℚ) (comps comps' : List CircuitComponent)
    (h : List.Forall₂ ValueCongr comps comps') :
    comps.map (resultFor t2n g nim nv (cwcOf comps) sol) =
      comps'.map (resultFor t2n g nim nv (cwcOf comps') sol) := by
  have hcwc := cwcOf_congr comps comps' h
  suffices H : ∀ (l l' : List CircuitComponent), List.Forall₂ ValueCongr l l' →
      (∀ a ∈ l, a ∈ comps) →
      l.map (resultFor t2n g nim nv (cwcOf comps) sol) =
        l'.map (resultFor t2n g nim nv (cwcOf comps') sol) by
    exact H comps comps' h (fun a ha => ha)
  intro l l' hll
  induction hll with
  | nil => intro _; rfl
  | cons hab htail ih =>
    intro hsub
    simp only [List.map_cons]
    have hhead : _ ∈ comps := hsub _ (List.mem_cons_self _ _)
    rw [resultFor_congr t2n g nim nv sol (cwcOf comps) (cwcOf comps') _ _ hab
      (findIdxA_id_congr _ _ _ hcwc) ?_]
    · rw [ih (fun a ha => hsub a (List.mem_cons_of_mem _ ha))]
    · intro hty hv
      refine findIdxA_isSome_of_mem _ _ _ (List.mem_filter.mpr ⟨hhead, ?_⟩) (by simp)
      simp [hty, hv]

/-- The solver result is unchanged when the value of an ideal-short resistor is
replaced by any other value below the short threshold. -/
theorem runSimulation_value_congr (comps comps' : List CircuitComponent)
    (conns : List Connection) (h : List.Forall₂ ValueCongr comps comps') :
    runSimulation comps conns = runSimulation comps' conns := by
  by_cases hnil : comps = []
  · subst hnil
    have : comps' = [] := by
      have := h.length_eq
      simpa using List.length_eq_zero.mp (by simpa using this.symm)
    subst this
    rfl
  · have hnil' : comps' ≠ [] := by
      intro he
      subst he
      have := h.length_eq
      exact hnil (List.length_eq_zero.mp (by simpa using this))
    have hBT := buildTopology_congr comps comps' conns h
    have hfilter := filterPS_congr comps comps' h
    have hzero := zeroResults_congr comps comps' h
    have hcwclen := (cwcOf_congr comps comps' h).length_eq
    simp only [runSimulation, if_neg hnil, if_neg hnil', hBT, hfilter, hzero]
    by_cases hnn : (buildTopology comps' conns).2 = 0
    · rw [if_pos hnn, if_pos hnn]
    · rw [if_neg hnn, if_neg hnn]
      cases hps : comps'.filter (fun c => decide (c.type = ComponentType.PowerSource)) with
      | nil => rfl
      | cons ps rest =>
        have hsetup := setupOf_congr comps comps' conns ps h
        simp only [hsetup, hcwclen]
        by_cases hms : (buildTopology comps' conns).2 - 1 + (cwcOf comps').length = 0
        · rw [if_pos hms, if_pos hms]
        · rw [if_neg hms, if_neg hms]
          cases hsol : solveLinearSystem (setupOf comps' conns ps).1
              (setupOf comps' conns ps).2 with
          | none => rfl
          | some sol =>
            exact map_resultFor_congr _ _ _ _ sol comps comps' h

/-- Ring of a 10 V source, a resistor of value `r` and a 50 Ω resistor, each
wired terminal 1 → terminal 0. -/
def shortRingComps (r : ℚ) : List CircuitComponent :=
  [⟨"V1", ComponentType.PowerSource, 10⟩, ⟨"RS", ComponentType.Resistor, r⟩,
   ⟨"R1", ComponentType.Resistor, 50⟩]

def shortRingConns : List Connection :=
  [⟨⟨"V1", 1⟩, ⟨"RS", 0⟩⟩, ⟨⟨"RS", 1⟩, ⟨"R1", 0⟩⟩, ⟨⟨"R1", 1⟩, ⟨"V1", 0⟩⟩]

/-- The same ring with the `RS` resistor replaced by a direct wire. -/
def wireRingComps : List CircuitComponent :=
  [⟨"V1", ComponentType.PowerSource, 10⟩, ⟨"R1", ComponentType.Resistor, 50⟩]

def wireRingConns : List Connection :=
  [⟨⟨"V1", 1⟩, ⟨"R1", 0⟩⟩, ⟨⟨"R1", 1⟩, ⟨"V1", 0⟩⟩]

set_option maxRecDepth 10000 in
/-- C7.  A resistor with value below ε = 1e-9 becomes a branch-current-variable
component (an enforced ideal short), and in the series circuit with a
PowerSource and a normal resistor the result mapping is identical to the
circuit with that resistor replaced by a direct wire: every other component
reports exactly what it reports in the wire circuit, and the short itself
reports 0 V while carrying the wire circuit's loop current. -/
theorem C7_short_resistor_is_wire (r : ℚ) (hr : r < shortEps) :
    (⟨"RS", ComponentType.Resistor, r⟩ : CircuitComponent) ∈ cwcOf (shortRingComps r) ∧
      (∀ cid, cid ≠ "RS" →
        alookup cid (runSimulation (shortRingComps r) shortRingConns) =
          alookup cid (runSimulation wireRingComps wireRingConns)) ∧
      alookup "RS" (runSimulation (shortRingComps r) shortRingConns) =
        some (0, ((alookup "R1" (runSimulation wireRingComps wireRingConns)).getD (0, 0)).2) := by
  have hcongr : runSimulation (shortRingComps r) shortRingConns =
      runSimulation (shortRingComps 0) shortRingConns := by
    refine runSimulation_value_congr _ _ _ ?_
    refine List.Forall₂.cons (Or.inl rfl) (List.Forall₂.cons ?_
      (List.Forall₂.cons (Or.inl rfl) List.Forall₂.nil))
    exact Or.inr ⟨rfl, rfl, rfl, hr, by norm_num [shortEps]⟩
  have h0 : runSimulation (shortRingComps 0) shortRingConns =
      [("V1", (10, 1/5)), ("RS", (0, 1/5)), ("R1", (10, 1/5))] := by decide
  have hw : runSimulation wireRingComps wireRingConns =
      [("V1", (10, 1/5)), ("R1", (10, 1/5))] := by decide
  refine ⟨?_, ?_, ?_⟩
  · refine List.mem_filter.mpr ⟨by simp [shortRingComps], ?_⟩
    simp [hr]
  · intro cid hcid
    rw [hcongr, h0, hw]
    by_cases h1 : cid = "V1"
    · simp [alookup_cons, h1]
    · by_cases h2 : cid = "R1"
      · simp [alookup_cons, h1, h2, hcid]
      · simp [alookup_cons, h1, h2, hcid, alookup]
  · rw [hcongr, h0, hw]
    decide

-- Witness for C7 at a 0.1 nΩ resistor.
theorem C7_short_resistor_is_wire_witness :
    ((1 : ℚ) / 10 ^ 10 < shortEps) ∧
      alookup "RS" (runSimulation (shortRingComps (1 / 10 ^ 10)) shortRingConns) =
        some (0, ((alookup "R1" (runSimulation wireRingComps wireRingConns)).getD (0, 0)).2) :=
  ⟨by norm_num [shortEps],
    (C7_short_resistor_is_wire (1 / 10 ^ 10) (by norm_num [shortEps])).2.2⟩

/-- Two resistors joined only through the phantom id "G": terminal (A,1) wires
to (G,1) and (G,1) wires to (B,1). -/
def ghostComps : List CircuitComponent :=
  [⟨"A", ComponentType.Resistor, 5⟩, ⟨"B", ComponentType.Resistor, 7⟩]

def ghostConns : List Connection :=
  [⟨⟨"A", 1⟩, ⟨"G", 1⟩⟩, ⟨⟨"G", 1⟩, ⟨"B", 1⟩⟩]

-- Witness for C10: the chain A-1 — G-1 — B-1 through the phantom id "G".
theorem C10_phantom_junction_witness :
    ((⟨"A", ComponentType.Resistor, 5⟩ : CircuitComponent) ∈ ghostComps ∧
        (⟨"B", ComponentType.Resistor, 7⟩ : CircuitComponent) ∈ ghostComps) ∧
      ∃ n, alookup ⟨"A", 1⟩ (buildTopology ghostComps ghostConns).1 = some n ∧
        alookup ⟨"B", 1⟩ (buildTopology ghostComps ghostConns).1 = some n :=
  ⟨⟨by decide, by decide⟩,
    C10_phantom_junction ghostComps ghostConns ⟨"A", ComponentType.Resistor, 5⟩
      ⟨"B", ComponentType.Resistor, 7⟩ (by decide) (by decide) 1 1 (Or.inr rfl) (Or.inr rfl)
      (Relation.ReflTransGen.tail
        (Relation.ReflTransGen.tail Relation.ReflTransGen.refl
          (show (⟨"G", 1⟩ : ConnectionPoint) ∈ adjOf ghostConns ⟨"A", 1⟩ by decide))
        (show (⟨"B", 1⟩ : ConnectionPoint) ∈ adjOf ghostConns ⟨"G", 1⟩ by decide))⟩

end Resona
